import Mathlib

/-!
Verification of the resumable crawl engine of the `Scraper` repository
(`arcat_scraper.py`, `sweets_scraper.py`).

The development shallowly embeds the parts of the two scrapers that the
claims are about:

* the contact-field extraction merge of `ARCATScraper.scrape_company_details`
  (NUXT serialized data first, regex fallbacks guarded on emptiness);
* the listing fold of `ARCATScraper.scrape_division_manufacturers`
  (per-page dedup by query-stripped href, association filter and counter);
* the orchestrator loops of `scrape_csi_only` (counting pass, detail loop,
  periodic checkpoint, interrupt checkpoint, resume skip set);
* the child-list expansion of `SWEETSScraper.scrape_division_sections`;
* the phone normalization of `SWEETSScraper._parse_address_tag`;
* the retry loop of `_make_request`;
* the `ProgressTracker` queries.

HTTP pages are abstracted as a deterministic environment: the environment
returns, for each URL, the data that the source's regular expressions
would extract from the markup of that URL (`none` models a failed fetch).
The `fetched` field of the run state is a ghost log recording the URLs
passed to `scrape_company_details`, used to state which detail pages a
run fetches.
-/

namespace Scraper

/-! ## String helpers (Python `str` operations used by the scrapers) -/

/-- Python `s.lower()` (ASCII, which is all the scrapers compare). -/
def lowerStr (s : String) : String :=
  String.mk (s.toList.map Char.toLower)

/-- Python `s.upper()`. -/
def upperStr (s : String) : String :=
  String.mk (s.toList.map Char.toUpper)

/-- Python `needle in hay` on lists of characters. -/
def subListAux (needle : List Char) : List Char → Bool
  | [] => needle.isEmpty
  | c :: t => needle.isPrefixOf (c :: t) || subListAux needle t

/-- Python substring test `sub in hay`. -/
def strContains (hay sub : String) : Bool :=
  subListAux sub.toList hay.toList

/-- Python `href.split('?')[0]`: the dedup key of a listing href — the
characters before the first `?`. -/
def stripQuery (href : String) : String :=
  String.mk (href.toList.takeWhile (fun c => c ≠ '?'))

/-- Python `s.strip(', ')`: drop leading and trailing commas and spaces. -/
def pyStripCommaSpace (s : String) : String :=
  let junk : List Char := [',', ' ']
  String.mk ((((s.toList.dropWhile junk.contains).reverse.dropWhile junk.contains).reverse))

/-- ASCII uppercase letter test, Python regex `[A-Z]`. -/
def isUpperAZ (c : Char) : Bool :=
  'A' ≤ c && c ≤ 'Z'

/-! ## Fixed tables of `arcat_scraper.py` / `sweets_scraper.py` -/

/-- `STATE_ABBREV_TO_FULL`: postal-region abbreviation to full name. -/
def STATE_ABBREV_TO_FULL : List (String × String) :=
  [("AL", "Alabama"), ("AK", "Alaska"), ("AZ", "Arizona"), ("AR", "Arkansas"),
   ("CA", "California"), ("CO", "Colorado"), ("CT", "Connecticut"), ("DE", "Delaware"),
   ("FL", "Florida"), ("GA", "Georgia"), ("HI", "Hawaii"), ("ID", "Idaho"),
   ("IL", "Illinois"), ("IN", "Indiana"), ("IA", "Iowa"), ("KS", "Kansas"),
   ("KY", "Kentucky"), ("LA", "Louisiana"), ("ME", "Maine"), ("MD", "Maryland"),
   ("MA", "Massachusetts"), ("MI", "Michigan"), ("MN", "Minnesota"), ("MS", "Mississippi"),
   ("MO", "Missouri"), ("MT", "Montana"), ("NE", "Nebraska"), ("NV", "Nevada"),
   ("NH", "New Hampshire"), ("NJ", "New Jersey"), ("NM", "New Mexico"), ("NY", "New York"),
   ("NC", "North Carolina"), ("ND", "North Dakota"), ("OH", "Ohio"), ("OK", "Oklahoma"),
   ("OR", "Oregon"), ("PA", "Pennsylvania"), ("RI", "Rhode Island"), ("SC", "South Carolina"),
   ("SD", "South Dakota"), ("TN", "Tennessee"), ("TX", "Texas"), ("UT", "Utah"),
   ("VT", "Vermont"), ("VA", "Virginia"), ("WA", "Washington"), ("WV", "West Virginia"),
   ("WI", "Wisconsin"), ("WY", "Wyoming"), ("DC", "District of Columbia"),
   ("AB", "Alberta"), ("BC", "British Columbia"), ("MB", "Manitoba"), ("NB", "New Brunswick"),
   ("NL", "Newfoundland and Labrador"), ("NS", "Nova Scotia"), ("NT", "Northwest Territories"),
   ("NU", "Nunavut"), ("ON", "Ontario"), ("PE", "Prince Edward Island"), ("QC", "Quebec"),
   ("SK", "Saskatchewan"), ("YT", "Yukon")]

/-- Python `STATE_ABBREV_TO_FULL.get(ab.upper(), ab)`. -/
def stateAbbrevToFull (ab : String) : String :=
  (((STATE_ABBREV_TO_FULL.find? (fun p => p.1 == upperStr ab)).map Prod.snd)).getD ab

/-- `ASSOCIATION_KEYWORDS`: keywords identifying non-company associations. -/
def ASSOCIATION_KEYWORDS : List String :=
  ["association", "institute", "society", "council", "foundation",
   "federation", "board", "committee", "organization", "alliance",
   "coalition", "consortium", "forum", "guild", "league", "union"]

/-- `ARCATScraper._is_association`: case-insensitive keyword membership
test on the company name. -/
def is_association (company_name : String) : Bool :=
  ASSOCIATION_KEYWORDS.any (fun kw => strContains (lowerStr company_name) kw)

/-- `ARCATScraper._extract_state_from_address`: search the address for the
pattern `,\s*([A-Z]{2})\s*\d{5}` and map the two-letter group through
`STATE_ABBREV_TO_FULL` (empty string when no match). -/
def extractStateAux : List Char → String
  | [] => ""
  | ',' :: rest =>
    let r1 := rest.dropWhile Char.isWhitespace
    (match r1 with
     | a :: b :: r2 =>
       if isUpperAZ a && isUpperAZ b then
         let r3 := r2.dropWhile Char.isWhitespace
         if 5 ≤ (r3.takeWhile Char.isDigit).length then
           stateAbbrevToFull (String.mk [a, b])
         else extractStateAux rest
       else extractStateAux rest
     | _ => extractStateAux rest)
  | _ :: rest => extractStateAux rest

/-- `ARCATScraper._extract_state_from_address` on a `String`. -/
def extract_state_from_address (address : String) : String :=
  if address = "" then "" else extractStateAux address.toList

/-- Regex `re.search(r'-(\d+)(?:\?|$)', href)` used to pull the company id
out of a listing href (first match; empty string when none). -/
def extractCompanyIdAux : List Char → String
  | [] => ""
  | '-' :: rest =>
    let ds := rest.takeWhile Char.isDigit
    let after := rest.drop ds.length
    if !ds.isEmpty && (after.isEmpty || after.headD ' ' == '?') then
      String.mk ds
    else extractCompanyIdAux rest
  | _ :: rest => extractCompanyIdAux rest

/-- Company id extraction from a listing href. -/
def extractCompanyId (href : String) : String :=
  extractCompanyIdAux href.toList

/-! ## SWEETS phone normalization (`SWEETSScraper._parse_address_tag`) -/

/-- Take exactly `n` decimal digits from the front of a character list. -/
def takeDigits : Nat → List Char → Option (List Char × List Char)
  | 0, l => some ([], l)
  | _ + 1, [] => none
  | n + 1, c :: t =>
    if c.isDigit then
      (takeDigits n t).map (fun p => (c :: p.1, p.2))
    else none

/-- Prefix match of Python `re.match(r'\((\d{3})\)\s*(\d{3})-(\d{4})', raw)`. -/
def matchParenPhone (raw : String) : Option (String × String × String) :=
  match raw.toList with
  | '(' :: t =>
    match takeDigits 3 t with
    | some (a, r1) =>
      (match r1 with
       | ')' :: r2 =>
         let r3 := r2.dropWhile Char.isWhitespace
         (match takeDigits 3 r3 with
          | some (b, r4) =>
            (match r4 with
             | '-' :: r5 =>
               (match takeDigits 4 r5 with
                | some (c, _) => some (String.mk a, String.mk b, String.mk c)
                | none => none)
             | _ => none)
          | none => none)
       | _ => none)
    | none => none
  | _ => none

/-- One-character class `[-.\s]` used between phone groups. -/
def isPhoneSep (c : Char) : Bool :=
  c == '-' || c == '.' || c.isWhitespace

/-- Prefix match of Python `re.match(r'(\d{3})[-.\s](\d{3})[-.\s](\d{4})', raw)`. -/
def matchDashPhone (raw : String) : Option (String × String × String) :=
  match takeDigits 3 raw.toList with
  | some (a, r1) =>
    (match r1 with
     | s1 :: r2 =>
       if isPhoneSep s1 then
         match takeDigits 3 r2 with
         | some (b, r3) =>
           (match r3 with
            | s2 :: r4 =>
              if isPhoneSep s2 then
                match takeDigits 4 r4 with
                | some (c, _) => some (String.mk a, String.mk b, String.mk c)
                | none => none
              else none
            | [] => none)
         | none => none
       else none
     | [] => none)
  | none => none

/-- The `Tel:` line normalization of `SWEETSScraper._parse_address_tag`
(lines 738-748): `(XXX) XXX-XXXX` or `XXX-XXX-XXXX` style prefixes are
rewritten to the canonical `(XXX) XXX-XXXX`; anything else is kept raw. -/
def sweetsNormalizePhone (raw : String) : String :=
  match matchParenPhone raw with
  | some (a, b, c) => "(" ++ a ++ ") " ++ b ++ "-" ++ c
  | none =>
    match matchDashPhone raw with
    | some (a, b, c) => "(" ++ a ++ ") " ++ b ++ "-" ++ c
    | none => raw

/-! ## ARCAT data model -/

/-- `Company` dataclass of `arcat_scraper.py` (the `products` list is never
populated by the crawl paths under study and is omitted). -/
structure Company where
  name : String
  url : String
  company_id : String := ""
  address : String := ""
  state : String := ""
  phone : String := ""
  website : String := ""
  email : String := ""
  product_expert_name : String := ""
  product_expert_phone : String := ""
  product_expert_email : String := ""
  building_product_category : String := ""
deriving DecidableEq, Repr

/-- `Division` dataclass of `arcat_scraper.py` (the `specifications` list is
not used by the csi-only mode). -/
structure Division where
  code : String
  name : String
  url : String
  companies : List Company := []
deriving DecidableEq, Repr

/-- The six capture groups of `_extract_from_nuxt_data` plus the separately
extracted website (each group already `.strip()`ed; empty string = the
corresponding pattern did not match the page). -/
structure NuxtData where
  address : String := ""
  city : String := ""
  state : String := ""
  zip : String := ""
  phone : String := ""
  email : String := ""
  website : String := ""
deriving DecidableEq, Repr

/-- Deterministic extraction outcome of one company detail page: the NUXT
capture groups and the results of the regex/HTML fallback strategies of
`scrape_company_details` (lines 910-1001). An empty string means the
fallback pattern found nothing; `expert` is the product-expert triple
(name, phone, email) when one of the three expert patterns matched. -/
structure ArcatDetail where
  nuxt : NuxtData := {}
  regex_address : String := ""
  regex_phone : String := ""
  regex_website : String := ""
  regex_email : String := ""
  expert : Option (String × String × String) := none
deriving DecidableEq, Repr

/-- Extraction outcome of `_extract_from_rendered_html` (Selenium path). -/
structure RenderedData where
  address : String := ""
  state : String := ""
  phone : String := ""
  email : String := ""
  website : String := ""
deriving DecidableEq, Repr

/-- Line 895 of `scrape_company_details`:
`f"{nuxt_data['address']}, {city}, {state} {zip_code}".strip(', ')`. -/
def composeNuxtAddress (n : NuxtData) : String :=
  pyStripCommaSpace (n.address ++ ", " ++ n.city ++ ", " ++ n.state ++ " " ++ n.zip)

/-- Lines 886-907 of `scrape_company_details`: apply the NUXT capture
groups, each field only when its group is non-empty; a found NUXT address
also sets the state through the abbreviation table. -/
def nuxtMergeStep (n : NuxtData) (c : Company) : Company :=
  let c1 := if n.address ≠ "" then
      { c with address := composeNuxtAddress n,
               state := stateAbbrevToFull n.state } else c
  let c2 := if n.phone ≠ "" then { c1 with phone := n.phone } else c1
  let c3 := if n.email ≠ "" then { c2 with email := n.email } else c2
  if n.website ≠ "" then { c3 with website := n.website } else c3

/-- Lines 910-929: regex address fallback, only when the address is still
empty; a found address also sets the state via
`_extract_state_from_address`. -/
def addressFallbackStep (ra : String) (c : Company) : Company :=
  if c.address = "" then
    (if ra = "" then c
     else { c with address := ra, state := extract_state_from_address ra })
  else c

/-- Lines 931-945: regex phone fallback, only when the phone is still empty. -/
def phoneFallbackStep (rp : String) (c : Company) : Company :=
  if c.phone = "" then { c with phone := rp } else c

/-- Lines 947-961: website fallback, only when the website is still empty. -/
def websiteFallbackStep (rw : String) (c : Company) : Company :=
  if c.website = "" then { c with website := rw } else c

/-- Lines 963-976: email fallback, only when the email is still empty. -/
def emailFallbackStep (re : String) (c : Company) : Company :=
  if c.email = "" then { c with email := re } else c

/-- Lines 978-1001: product-expert extraction; the three cascaded patterns
either yield a (name, phone, email) triple or leave the fields alone. -/
def expertStep (e : Option (String × String × String)) (c : Company) : Company :=
  match e with
  | some t => { c with product_expert_name := t.1,
                       product_expert_phone := t.2.1,
                       product_expert_email := t.2.2 }
  | none => c

/-- The requests-only detail merge of `ARCATScraper.scrape_company_details`
(lines 886-1001, `use_selenium = False`): NUXT data is applied first
(each field only when its group is non-empty), then the regex fallbacks,
each guarded by the target field still being empty. -/
def applyArcatDetail (d : ArcatDetail) (c : Company) : Company :=
  expertStep d.expert
    (emailFallbackStep d.regex_email
      (websiteFallbackStep d.regex_website
        (phoneFallbackStep d.regex_phone
          (addressFallbackStep d.regex_address
            (nuxtMergeStep d.nuxt c)))))

/-- The Selenium rendered-HTML block of `scrape_company_details`
(lines 858-873): rendered values overwrite unconditionally when non-empty;
the state is mapped through the abbreviation table only when the rendered
address was found. -/
def applyRenderedData (r : RenderedData) (c : Company) : Company :=
  let c1 := if r.address ≠ "" then
      (let cA := { c with address := r.address }
       if r.state ≠ "" then { cA with state := stateAbbrevToFull r.state } else cA)
    else c
  let c2 := if r.phone ≠ "" then { c1 with phone := r.phone } else c1
  let c3 := if r.email ≠ "" then { c2 with email := r.email } else c2
  if r.website ≠ "" then { c3 with website := r.website } else c3

/-- One full extraction pass of `scrape_company_details` with
`use_selenium = True`: the rendered-HTML strategy runs first, then the
NUXT/regex merge runs on the page source and overwrites non-empty NUXT
fields even when the rendered strategy already populated them. -/
def applyArcatDetailSelenium (r : RenderedData) (d : ArcatDetail) (c : Company) : Company :=
  applyArcatDetail d (applyRenderedData r c)

/-! ## SWEETS models used by C4, C5 and C8 -/

/-- A section link of a SWEETS division page after the text regex of
`scrape_division_sections` matched: its href and the parsed code, name and
item count. -/
structure SectionMeta where
  href : String
  code : String
  name : String
  item_count : Nat := 0
deriving DecidableEq, Repr

/-- `Section` dataclass of `sweets_scraper.py` (products omitted: the claim
C4 is about the child list). -/
structure SSection where
  code : String
  name : String
  url : String
  item_count : Nat := 0
deriving DecidableEq, Repr

/-- `Division` dataclass of `sweets_scraper.py`. -/
structure SDivision where
  code : String
  name : String
  url : String
  item_count : Nat := 0
  sections : List SSection := []
deriving DecidableEq, Repr

/-- `sweets.construction.com` base URL. -/
def SWEETS_BASE_URL : String := "https://sweets.construction.com"

/-- The body of the link loop of `SWEETSScraper.scrape_division_sections`:
dedup by full href within one call, make a `Section`, and *append* it to
`division.sections`. -/
def sectionsFromLinks (links : List SectionMeta) : List SSection :=
  (links.foldl
    (fun (st : List String × List SSection) l =>
      if st.1.contains l.href then st
      else (st.1 ++ [l.href],
            st.2 ++ [{ code := l.code, name := l.name,
                       url := SWEETS_BASE_URL ++ l.href, item_count := l.item_count }]))
    ([], [])).2

/-- `SWEETSScraper.scrape_division_sections`: `division.sections.append(...)`
for every deduplicated link — the new sections are appended to whatever
`division.sections` already holds (the text-parsing regex is abstracted:
`links` are the anchors whose text matched). -/
def scrape_division_sections (links : List SectionMeta) (d : SDivision) : SDivision :=
  { d with sections := d.sections ++ sectionsFromLinks links }

/-- The guard at the call site (`scrape_all` line 1441:
`if not division.sections: self.scrape_division_sections(division)`). -/
def expandSectionsGuarded (links : List SectionMeta) (d : SDivision) : SDivision :=
  if d.sections.isEmpty then scrape_division_sections links d else d

/-- Contact data extracted for a SWEETS product (the eight keys of the
`result` dict of `_parse_address_tag`). -/
structure SContact where
  address : String := ""
  city : String := ""
  state : String := ""
  zip_code : String := ""
  phone : String := ""
  fax : String := ""
  email : String := ""
  website : String := ""
deriving DecidableEq, Repr

/-- The contact fields of the `Product` dataclass of `sweets_scraper.py`
(categorical and download fields omitted; they are independent of the
contact-field strategies claim). -/
structure SProduct where
  name : String
  url : String
  manufacturer_id : String := ""
  address : String := ""
  city : String := ""
  state : String := ""
  zip_code : String := ""
  phone : String := ""
  fax : String := ""
  email : String := ""
  website : String := ""
deriving DecidableEq, Repr

/-- The contact part of `SWEETSScraper.scrape_product_details`
(lines 832-937): the primary `<address>`-tag strategy sets all eight
fields when the tag is present, otherwise the regex fallback results are
used; afterwards, when the address is still blank and a manufacturer id
exists, the manufacturer-page fallback fills the address fields and the
still-empty contact fields. `primary = some contact` models a present
`<address>` tag parsed to `contact`; `mfr = some m` models a successful
(or cached) manufacturer-page lookup. -/
def applySweetsDetail (primary : Option SContact) (fallback : SContact)
    (mfr : Option SContact) (p : SProduct) : SProduct :=
  let p1 :=
    match primary with
    | some contact =>
      { p with phone := contact.phone, fax := contact.fax,
               email := contact.email, website := contact.website,
               address := contact.address, city := contact.city,
               state := contact.state, zip_code := contact.zip_code }
    | none =>
      let q1 := if fallback.phone ≠ "" then { p with phone := fallback.phone } else p
      let q2 := if fallback.fax ≠ "" then { q1 with fax := fallback.fax } else q1
      let q3 := if fallback.email ≠ "" then { q2 with email := fallback.email } else q2
      let q4 := if fallback.website ≠ "" then { q3 with website := fallback.website } else q3
      if fallback.address ≠ "" then
        { q4 with address := fallback.address, city := fallback.city,
                  state := fallback.state, zip_code := fallback.zip_code }
      else q4
  if p1.address = "" && p1.manufacturer_id ≠ "" then
    match mfr with
    | some m =>
      let p2 := { p1 with address := m.address, city := m.city,
                          state := m.state, zip_code := m.zip_code }
      let p3 := if p2.phone = "" then { p2 with phone := m.phone } else p2
      let p4 := if p3.fax = "" then { p3 with fax := m.fax } else p3
      let p5 := if p4.email = "" then { p4 with email := m.email } else p4
      if p5.website = "" then { p5 with website := m.website } else p5
    | none => p1
  else p1

/-! ## ARCAT listing fold (`scrape_division_manufacturers`, lines 1110-1148) -/

/-- `www.arcat.com` base URL. -/
def BASE_URL : String := "https://www.arcat.com"

/-- Line 1138: `f"{BASE_URL}{href}" if href.startswith('/') else href`. -/
def fullUrl (href : String) : String :=
  if href.toList.headD ' ' == '/' then BASE_URL ++ href else href

/-- One company anchor of a division listing page: its href and stripped
anchor text. -/
structure CompanyLink where
  href : String
  text : String
deriving DecidableEq, Repr

/-- State threaded through the listing loop: the `seen_companies` dict as an
insertion-ordered association list keyed by the query-stripped href, and
the `skipped_associations` counter. -/
def MfrState : Type := List (String × Company) × Nat

/-- The body of the link loop of `scrape_division_manufacturers`
(lines 1115-1146): skip empty names and sub-page links, dedup by
query-stripped href, count and discard associations, otherwise insert the
new `Company` keyed by the stripped href. -/
def processCompanyLink (dcode dname : String) (st : MfrState) (l : CompanyLink) : MfrState :=
  if l.text = "" || strContains l.href "/cad" || strContains l.href "/bim"
      || strContains l.href "/spec" then st
  else
    let base := stripQuery l.href
    if (st.1.map Prod.fst).contains base then st
    else if is_association l.text then (st.1, st.2 + 1)
    else
      let comp : Company :=
        { name := l.text, url := fullUrl l.href,
          company_id := extractCompanyId l.href,
          building_product_category := dcode ++ " - " ++ dname }
      (st.1 ++ [(base, comp)], st.2)

/-- The whole link loop of `scrape_division_manufacturers`. -/
def mfrFold (dcode dname : String) (links : List CompanyLink) : MfrState :=
  links.foldl (processCompanyLink dcode dname) ([], 0)

/-- `scrape_division_manufacturers` applied to the parsed company links of
a fetched division page: overwrites `division.companies` with the values
of `seen_companies` in insertion order and returns the
`skipped_associations` counter. -/
def scrape_division_manufacturers (d : Division) (links : List CompanyLink) :
    Division × Nat :=
  let r := mfrFold d.code d.name links
  ({ d with companies := r.1.map Prod.snd }, r.2)

/-! ## The csi-only orchestrator (`scrape_csi_only`, lines 1687-1781) -/

/-- Deterministic markup environment: what each URL's markup parses to.
`related_divisions` is the result of `scrape_related_csi_divisions`
(code, name, url triples); `manufacturers` maps a division URL to its
parsed company links (`none` = the fetch failed after retries);
`detail` maps a company URL to the extraction outcome of its detail page
(`none` = the fetch failed). -/
structure CrawlEnv where
  related_divisions : List (String × String × String)
  manufacturers : String → Option (List CompanyLink)
  detail : String → Option ArcatDetail

/-- Division-page fetch plus listing fold: on a failed fetch
`scrape_division_manufacturers` returns the division unchanged. -/
def scrapeDivisionManufacturersFetch (env : CrawlEnv) (d : Division) : Division × Nat :=
  match env.manufacturers d.url with
  | none => (d, 0)
  | some links => scrape_division_manufacturers d links

/-- The counting-pass guard (line 1731:
`if not division.companies: scraper.scrape_division_manufacturers(division)`). -/
def expandDivision (env : CrawlEnv) (d : Division) : Division :=
  if d.companies.isEmpty then (scrapeDivisionManufacturersFetch env d).1 else d

/-- One call of `scrape_company_details` for a company: on a failed fetch
the company is returned unchanged, otherwise the extraction merge of its
detail page is applied. -/
def detailOnce (env : CrawlEnv) (c : Company) : Company :=
  match env.detail c.url with
  | none => c
  | some d => applyArcatDetail d c

/-- Mutable run state of the orchestrator: `count` is
`companies_scraped_count`, `checkpoint` the persisted snapshot (the full
division tree), `halted` the `interrupted` flag, `budget` the number of
entities after which the run is interrupted (`none` = never), and
`fetched` a ghost log of the company URLs passed to
`scrape_company_details`. -/
structure RunSt where
  count : Nat := 0
  fetched : List String := []
  checkpoint : Option (List Division) := none
  halted : Bool := false
  budget : Option Nat := none
deriving DecidableEq, Repr

/-- Whether the interrupt fires before the next entity is processed. -/
def shouldCrash (st : RunSt) : Bool :=
  match st.budget with
  | none => false
  | some b => b ≤ st.count

/-- The periodic-checkpoint test of `_maybe_save_checkpoint`:
`companies_scraped_count > 0 and companies_scraped_count % CHECKPOINT_INTERVAL == 0`. -/
def checkpointDue (ival cnt : Nat) : Bool :=
  cnt != 0 && cnt % ival == 0

/-- The inner company loop of `scrape_csi_only` (lines 1748-1764): skip
companies in the resume set, otherwise detail-fetch, bump the counter,
save a periodic checkpoint every `ival` companies; an interrupt saves a
checkpoint of the current tree (the signal handler of
`_setup_signal_handlers`) and halts. `ctx` rebuilds the full division
tree from the current division's company list, so checkpoints snapshot
the whole tree. -/
def companiesLoop (env : CrawlEnv) (ival : Nat) (skip : String → Bool)
    (ctx : List Company → List Division) (st : RunSt) :
    List Company → List Company × RunSt
  | [] => ([], st)
  | c :: rest =>
    if st.halted then (c :: rest, st)
    else if skip c.url then
      let r := companiesLoop env ival skip (fun cs => ctx (c :: cs)) st rest
      (c :: r.1, r.2)
    else if shouldCrash st then
      (c :: rest, { st with halted := true, checkpoint := some (ctx (c :: rest)) })
    else
      let c' := detailOnce env c
      let st1 := { st with count := st.count + 1, fetched := st.fetched ++ [c.url] }
      let st2 := if checkpointDue ival st1.count then
          { st1 with checkpoint := some (ctx (c' :: rest)) } else st1
      let r := companiesLoop env ival skip (fun cs => ctx (c' :: cs)) st2 rest
      (c' :: r.1, r.2)

/-- The outer division loop of `scrape_csi_only` (lines 1740-1767). -/
def divisionsLoop (env : CrawlEnv) (ival : Nat) (skip : String → Bool)
    (ctx : List Division → List Division) (st : RunSt) :
    List Division → List Division × RunSt
  | [] => ([], st)
  | d :: rest =>
    if st.halted then (d :: rest, st)
    else
      let r := companiesLoop env ival skip
        (fun cs => ctx ({ d with companies := cs } :: rest)) st d.companies
      let d' := { d with companies := r.1 }
      let r2 := divisionsLoop env ival skip (fun ds => ctx (d' :: ds)) r.2 rest
      (d' :: r2.1, r2.2)

/-- `scrape_related_csi_divisions` result as bare divisions. -/
def discoverDivisions (env : CrawlEnv) : List Division :=
  env.related_divisions.map (fun t => { code := t.1, name := t.2.1, url := t.2.2 })

/-- The tree after discovery and the counting pass of a fresh run: every
division's company list populated once. -/
def initialTree (env : CrawlEnv) : List Division :=
  (discoverDivisions env).map (expandDivision env)

/-- A fresh `scrape_csi_only` run: discovery, counting pass, detail loop
with an empty skip set; on normal completion the final tree is saved as
the checkpoint (line 1772), an interrupt leaves the interrupt checkpoint. -/
def freshRunCsi (env : CrawlEnv) (ival : Nat) (budget : Option Nat) :
    List Division × RunSt :=
  let r := divisionsLoop env ival (fun _ => false) id
    { budget := budget } (initialTree env)
  (r.1, if r.2.halted then r.2 else { r.2 with checkpoint := some r.1 })

/-- The resume skip set of `scrape_csi_only` (lines 1708-1716): the URLs of
checkpointed companies whose `address` is non-empty. -/
def skipOf (ckpt : List Division) : String → Bool :=
  fun u => ckpt.any (fun d => d.companies.any (fun c => c.url == u && c.address != ""))

/-- A resumed `scrape_csi_only` run from the checkpoint tree `ckpt`:
restore the tree, build the already-scraped URL set, re-run discovery
only when the restored tree is empty, re-expand divisions with an empty
company list, then run the detail loop skipping the already-scraped set. -/
def resumeRunCsi (env : CrawlEnv) (ival : Nat) (ckpt : List Division) :
    List Division × RunSt :=
  let tree0 := (if ckpt.isEmpty then discoverDivisions env else ckpt).map (expandDivision env)
  let r := divisionsLoop env ival (skipOf ckpt) id {} tree0
  (r.1, if r.2.halted then r.2 else { r.2 with checkpoint := some r.1 })

/-! ## Specification functions used to characterize the runs -/

/-- All companies of the tree in traversal order. -/
def flattenTree (ds : List Division) : List Company :=
  (ds.map Division.companies).flatten

/-- Detail-fetch the first `b` companies of a list, leave the rest raw. -/
def firstDetail (env : CrawlEnv) : Nat → List Company → List Company
  | 0, cs => cs
  | _ + 1, [] => []
  | b + 1, c :: cs => detailOnce env c :: firstDetail env b cs

/-- Detail-fetch the first `b` companies of the tree in traversal order. -/
def splitDetailDivs (env : CrawlEnv) : Nat → List Division → List Division
  | _, [] => []
  | b, d :: rest =>
    { d with companies := firstDetail env b d.companies } ::
      splitDetailDivs env (b - d.companies.length) rest

/-- The tree with every company detail-fetched once. -/
def fullDetailTree (env : CrawlEnv) (ds : List Division) : List Division :=
  ds.map (fun d => { d with companies := d.companies.map (detailOnce env) })

/-- The per-company step of a detail loop with skip set `skip`. -/
def stepCompany (env : CrawlEnv) (skip : String → Bool) (c : Company) : Company :=
  if skip c.url then c else detailOnce env c

/-! ## Characterization of the detail merge -/

/-- First-nonempty-wins value of one contact field after a merge: the NUXT
group when non-empty, else the fallback when the field was still empty. -/
def fdFirst (n fb x : String) : String :=
  if n ≠ "" then n else (if x = "" then fb else x)

/-- Value of the address field after one `scrape_company_details` merge. -/
def fdAddr (d : ArcatDetail) (x : String) : String :=
  let a1 := if d.nuxt.address ≠ "" then composeNuxtAddress d.nuxt else x
  if a1 = "" then (if d.regex_address = "" then a1 else d.regex_address) else a1

/-- Value of the state field after one `scrape_company_details` merge. -/
def fdState (d : ArcatDetail) (x xs : String) : String :=
  let a1 := if d.nuxt.address ≠ "" then composeNuxtAddress d.nuxt else x
  let s1 := if d.nuxt.address ≠ "" then stateAbbrevToFull d.nuxt.state else xs
  if a1 = "" ∧ d.regex_address ≠ "" then extract_state_from_address d.regex_address else s1

theorem nuxtMergeStep_eq (n : NuxtData) (c : Company) :
    nuxtMergeStep n c =
      { c with address := if n.address ≠ "" then composeNuxtAddress n else c.address,
               state := if n.address ≠ "" then stateAbbrevToFull n.state else c.state,
               phone := if n.phone ≠ "" then n.phone else c.phone,
               email := if n.email ≠ "" then n.email else c.email,
               website := if n.website ≠ "" then n.website else c.website } := by
  obtain ⟨nm, u, cid, ad, stt, ph, ws, em, pen, pep, pee, bpc⟩ := c
  unfold nuxtMergeStep
  split_ifs <;> simp_all

theorem addressFallbackStep_eq (ra : String) (c : Company) :
    addressFallbackStep ra c =
      { c with address := if c.address = "" then (if ra = "" then c.address else ra) else c.address,
               state := if c.address = "" ∧ ra ≠ "" then extract_state_from_address ra else c.state } := by
  obtain ⟨nm, u, cid, ad, stt, ph, ws, em, pen, pep, pee, bpc⟩ := c
  unfold addressFallbackStep
  split_ifs <;> simp_all

theorem phoneFallbackStep_eq (rp : String) (c : Company) :
    phoneFallbackStep rp c =
      { c with phone := if c.phone = "" then rp else c.phone } := by
  obtain ⟨nm, u, cid, ad, stt, ph, ws, em, pen, pep, pee, bpc⟩ := c
  unfold phoneFallbackStep
  split_ifs <;> simp_all

theorem websiteFallbackStep_eq (rw : String) (c : Company) :
    websiteFallbackStep rw c =
      { c with website := if c.website = "" then rw else c.website } := by
  obtain ⟨nm, u, cid, ad, stt, ph, ws, em, pen, pep, pee, bpc⟩ := c
  unfold websiteFallbackStep
  split_ifs <;> simp_all

theorem emailFallbackStep_eq (re : String) (c : Company) :
    emailFallbackStep re c =
      { c with email := if c.email = "" then re else c.email } := by
  obtain ⟨nm, u, cid, ad, stt, ph, ws, em, pen, pep, pee, bpc⟩ := c
  unfold emailFallbackStep
  split_ifs <;> simp_all

theorem expertStep_eq (e : Option (String × String × String)) (c : Company) :
    expertStep e c =
      { c with product_expert_name := (e.map (fun t => t.1)).getD c.product_expert_name,
               product_expert_phone := (e.map (fun t => t.2.1)).getD c.product_expert_phone,
               product_expert_email := (e.map (fun t => t.2.2)).getD c.product_expert_email } := by
  cases e <;> rfl

/-- Closed form of the `scrape_company_details` merge: every contact field
is a first-nonempty-wins combination of its strategies. -/
theorem applyArcatDetail_eq (d : ArcatDetail) (c : Company) :
    applyArcatDetail d c =
      { c with address := fdAddr d c.address,
               state := fdState d c.address c.state,
               phone := fdFirst d.nuxt.phone d.regex_phone c.phone,
               email := fdFirst d.nuxt.email d.regex_email c.email,
               website := fdFirst d.nuxt.website d.regex_website c.website,
               product_expert_name := (d.expert.map (fun t => t.1)).getD c.product_expert_name,
               product_expert_phone := (d.expert.map (fun t => t.2.1)).getD c.product_expert_phone,
               product_expert_email := (d.expert.map (fun t => t.2.2)).getD c.product_expert_email } := by
  obtain ⟨nm, u, cid, ad, stt, ph, ws, em, pen, pep, pee, bpc⟩ := c
  unfold applyArcatDetail
  rw [nuxtMergeStep_eq, addressFallbackStep_eq, phoneFallbackStep_eq,
      websiteFallbackStep_eq, emailFallbackStep_eq, expertStep_eq]
  unfold fdAddr fdState fdFirst
  dsimp only
  simp only [Company.mk.injEq, true_and, and_true]
  repeat' apply And.intro
  all_goals (split_ifs <;> simp_all)

theorem fdFirst_idem (n fb x : String) : fdFirst n fb (fdFirst n fb x) = fdFirst n fb x := by
  unfold fdFirst
  split_ifs <;> simp_all

theorem fdAddr_idem (d : ArcatDetail) (x : String) :
    fdAddr d (fdAddr d x) = fdAddr d x := by
  unfold fdAddr
  dsimp only
  split_ifs <;> simp_all

theorem fdState_idem (d : ArcatDetail) (x xs : String) :
    fdState d (fdAddr d x) (fdState d x xs) = fdState d x xs := by
  unfold fdState fdAddr
  dsimp only
  split_ifs <;> simp_all

/-- Re-running the detail merge of the same page over its own result
changes nothing: the merge is idempotent. -/
theorem applyArcatDetail_idem (d : ArcatDetail) (c : Company) :
    applyArcatDetail d (applyArcatDetail d c) = applyArcatDetail d c := by
  rw [applyArcatDetail_eq d c, applyArcatDetail_eq]
  obtain ⟨nm, u, cid, ad, stt, ph, ws, em, pen, pep, pee, bpc⟩ := c
  dsimp only
  simp only [Company.mk.injEq, true_and, and_true]
  refine ⟨fdAddr_idem d ad, fdState_idem d ad stt, fdFirst_idem _ _ _,
    fdFirst_idem _ _ _, fdFirst_idem _ _ _, ?_, ?_, ?_⟩ <;>
    cases d.expert <;> simp

theorem applyArcatDetail_url (d : ArcatDetail) (c : Company) :
    (applyArcatDetail d c).url = c.url := by
  rw [applyArcatDetail_eq]

/-! ## Lemmas about the orchestrator loops -/
theorem detailOnce_url (env : CrawlEnv) (c : Company) :
    (detailOnce env c).url = c.url := by
  unfold detailOnce
  cases h : env.detail c.url <;> simp [applyArcatDetail_url]

theorem detailOnce_idem (env : CrawlEnv) (c : Company) :
    detailOnce env (detailOnce env c) = detailOnce env c := by
  unfold detailOnce
  cases h : env.detail c.url <;>
    simp [h, applyArcatDetail_url, applyArcatDetail_idem]

theorem companiesLoop_halted (env : CrawlEnv) (ival : Nat) (skip : String → Bool)
    (ctx : List Company → List Division) (st : RunSt) (cs : List Company)
    (h : st.halted = true) :
    companiesLoop env ival skip ctx st cs = (cs, st) := by
  cases cs <;> simp [companiesLoop, h]

theorem divisionsLoop_halted (env : CrawlEnv) (ival : Nat) (skip : String → Bool)
    (ctx : List Division → List Division) (st : RunSt) (ds : List Division)
    (h : st.halted = true) :
    divisionsLoop env ival skip ctx st ds = (ds, st) := by
  cases ds <;> simp [divisionsLoop, h]

theorem companiesLoop_no_budget (env : CrawlEnv) (ival : Nat) (skip : String → Bool) :
    ∀ (cs : List Company) (ctx : List Company → List Division)
      (cnt : Nat) (fet : List String) (ckp : Option (List Division)),
      (companiesLoop env ival skip ctx ⟨cnt, fet, ckp, false, none⟩ cs).1 =
        cs.map (stepCompany env skip) ∧
      ∃ cnt2 ckp2,
        (companiesLoop env ival skip ctx ⟨cnt, fet, ckp, false, none⟩ cs).2 =
          ⟨cnt2, fet ++ (cs.filter (fun c => !skip c.url)).map Company.url, ckp2, false, none⟩ := by
  intro cs
  induction cs with
  | nil =>
    intro ctx cnt fet ckp
    exact ⟨rfl, cnt, ckp, by simp [companiesLoop]⟩
  | cons c rest ih =>
    intro ctx cnt fet ckp
    by_cases hs : skip c.url
    · obtain ⟨ha, cnt2, ckp2, hb⟩ := ih (fun cs => ctx (c :: cs)) cnt fet ckp
      refine ⟨?_, cnt2, ckp2, ?_⟩ <;>
        simp [companiesLoop, hs, stepCompany, ha, hb]
    · cases hdue : checkpointDue ival (cnt + 1) with
      | true =>
        obtain ⟨ha, cnt2, ckp2, hb⟩ := ih (fun cs => ctx (detailOnce env c :: cs)) (cnt + 1)
          (fet ++ [c.url]) (some (ctx (detailOnce env c :: rest)))
        refine ⟨?_, cnt2, ckp2, ?_⟩ <;>
          simp [companiesLoop, hs, shouldCrash, stepCompany, hdue, ha, hb]
      | false =>
        obtain ⟨ha, cnt2, ckp2, hb⟩ := ih (fun cs => ctx (detailOnce env c :: cs)) (cnt + 1)
          (fet ++ [c.url]) ckp
        refine ⟨?_, cnt2, ckp2, ?_⟩ <;>
          simp [companiesLoop, hs, shouldCrash, stepCompany, hdue, ha, hb]

theorem flattenTree_cons (d : Division) (rest : List Division) :
    flattenTree (d :: rest) = d.companies ++ flattenTree rest := by
  simp [flattenTree]

theorem divisionsLoop_no_budget (env : CrawlEnv) (ival : Nat) (skip : String → Bool) :
    ∀ (ds : List Division) (ctx : List Division → List Division)
      (cnt : Nat) (fet : List String) (ckp : Option (List Division)),
      (divisionsLoop env ival skip ctx ⟨cnt, fet, ckp, false, none⟩ ds).1 =
        ds.map (fun d => { d with companies := d.companies.map (stepCompany env skip) }) ∧
      ∃ cnt2 ckp2,
        (divisionsLoop env ival skip ctx ⟨cnt, fet, ckp, false, none⟩ ds).2 =
          ⟨cnt2, fet ++ ((flattenTree ds).filter (fun c => !skip c.url)).map Company.url,
            ckp2, false, none⟩ := by
  intro ds
  induction ds with
  | nil =>
    intro ctx cnt fet ckp
    exact ⟨rfl, cnt, ckp, by simp [divisionsLoop, flattenTree]⟩
  | cons d rest ih =>
    intro ctx cnt fet ckp
    obtain ⟨ha, cnt1, ckp1, hb⟩ := companiesLoop_no_budget env ival skip d.companies
      (fun cs => ctx ({ d with companies := cs } :: rest)) cnt fet ckp
    obtain ⟨hc, cnt2, ckp2, hd⟩ := ih
      (fun ds2 => ctx ({ d with companies := d.companies.map (stepCompany env skip) } :: ds2))
      cnt1 (fet ++ (d.companies.filter (fun c => !skip c.url)).map Company.url) ckp1
    refine ⟨?_, cnt2, ckp2, ?_⟩ <;>
      simp [divisionsLoop, ha, hb, hc, hd, flattenTree_cons]

theorem firstDetail_ge (env : CrawlEnv) :
    ∀ (b : Nat) (cs : List Company), cs.length ≤ b →
      firstDetail env b cs = cs.map (detailOnce env)
  | 0, [], _ => rfl
  | 0, _ :: _, h => by simp at h
  | _ + 1, [], _ => rfl
  | b + 1, c :: cs, h => by
    simp only [firstDetail, List.map_cons, List.cons.injEq, true_and]
    exact firstDetail_ge env b cs (by simpa using h)

theorem firstDetail_length (env : CrawlEnv) :
    ∀ (b : Nat) (cs : List Company), (firstDetail env b cs).length = cs.length
  | 0, _ => rfl
  | _ + 1, [] => rfl
  | b + 1, c :: cs => by simp [firstDetail, firstDetail_length env b cs]

theorem splitDetailDivs_zero (env : CrawlEnv) :
    ∀ (ds : List Division), splitDetailDivs env 0 ds = ds
  | [] => rfl
  | d :: rest => by simp [splitDetailDivs, firstDetail, splitDetailDivs_zero env rest]

def totalLen (ds : List Division) : Nat := (flattenTree ds).length

theorem splitDetailDivs_ge (env : CrawlEnv) :
    ∀ (b : Nat) (ds : List Division), totalLen ds ≤ b →
      splitDetailDivs env b ds = fullDetailTree env ds
  | _, [], _ => rfl
  | b, d :: rest, h => by
    have hlen : d.companies.length + totalLen rest ≤ b := by
      simpa [totalLen, flattenTree_cons] using h
    simp only [splitDetailDivs, fullDetailTree, List.map_cons, List.cons.injEq]
    constructor
    · rw [firstDetail_ge env b d.companies (le_trans (Nat.le_add_right _ _) hlen)]
    · exact splitDetailDivs_ge env (b - d.companies.length) rest
        (Nat.le_sub_of_add_le (by omega))

theorem companiesLoop_crash (env : CrawlEnv) (ival : Nat) :
    ∀ (cs : List Company) (ctx : List Company → List Division)
      (b cnt : Nat) (fet : List String) (ckp : Option (List Division)) (k : Nat),
      cnt + b = k → b < cs.length →
      companiesLoop env ival (fun _ => false) ctx ⟨cnt, fet, ckp, false, some k⟩ cs =
        (firstDetail env b cs,
         ⟨cnt + b, fet ++ (cs.take b).map Company.url,
          some (ctx (firstDetail env b cs)), true, some k⟩) := by
  intro cs
  induction cs with
  | nil => intro ctx b cnt fet ckp k hk hb; simp at hb
  | cons c rest ih =>
    intro ctx b cnt fet ckp k hk hb
    match b with
    | 0 =>
      have hcr : shouldCrash ⟨cnt, fet, ckp, false, some k⟩ = true := by
        simp [shouldCrash]; omega
      simp [companiesLoop, hcr, firstDetail]
    | b' + 1 =>
      have hcr : shouldCrash ⟨cnt, fet, ckp, false, some k⟩ = false := by
        simp [shouldCrash]; omega
      have hb' : b' < rest.length := by simpa using hb
      cases hdue : checkpointDue ival (cnt + 1) with
      | true =>
        have hr := ih (fun cs => ctx (detailOnce env c :: cs)) b' (cnt + 1)
          (fet ++ [c.url]) (some (ctx (detailOnce env c :: rest))) k (by omega) hb'
        simp [companiesLoop, hcr, hdue, hr, firstDetail]
        omega
      | false =>
        have hr := ih (fun cs => ctx (detailOnce env c :: cs)) b' (cnt + 1)
          (fet ++ [c.url]) ckp k (by omega) hb'
        simp [companiesLoop, hcr, hdue, hr, firstDetail]
        omega

theorem companiesLoop_nocrash (env : CrawlEnv) (ival : Nat) :
    ∀ (cs : List Company) (ctx : List Company → List Division)
      (b cnt : Nat) (fet : List String) (ckp : Option (List Division)) (k : Nat),
      cnt + b = k → cs.length ≤ b →
      ∃ ckp2,
        companiesLoop env ival (fun _ => false) ctx ⟨cnt, fet, ckp, false, some k⟩ cs =
          (cs.map (detailOnce env),
           ⟨cnt + cs.length, fet ++ cs.map Company.url, ckp2, false, some k⟩) := by
  intro cs
  induction cs with
  | nil =>
    intro ctx b cnt fet ckp k hk hb
    exact ⟨ckp, by simp [companiesLoop]⟩
  | cons c rest ih =>
    intro ctx b cnt fet ckp k hk hb
    match b with
    | 0 => simp at hb
    | b' + 1 =>
      have hlen : rest.length ≤ b' := by simpa using hb
      have hcr : shouldCrash ⟨cnt, fet, ckp, false, some k⟩ = false := by
        simp [shouldCrash]; omega
      cases hdue : checkpointDue ival (cnt + 1) with
      | true =>
        obtain ⟨ckp2, hr⟩ := ih (fun cs => ctx (detailOnce env c :: cs)) b' (cnt + 1)
          (fet ++ [c.url]) (some (ctx (detailOnce env c :: rest))) k (by omega) hlen
        refine ⟨ckp2, ?_⟩
        simp [companiesLoop, hcr, hdue, hr]
        omega
      | false =>
        obtain ⟨ckp2, hr⟩ := ih (fun cs => ctx (detailOnce env c :: cs)) b' (cnt + 1)
          (fet ++ [c.url]) ckp k (by omega) hlen
        refine ⟨ckp2, ?_⟩
        simp [companiesLoop, hcr, hdue, hr]
        omega

theorem divisionsLoop_crash (env : CrawlEnv) (ival : Nat) :
    ∀ (ds : List Division) (ctx : List Division → List Division)
      (b cnt : Nat) (fet : List String) (ckp : Option (List Division)) (k : Nat),
      cnt + b = k → b < totalLen ds →
      divisionsLoop env ival (fun _ => false) ctx ⟨cnt, fet, ckp, false, some k⟩ ds =
        (splitDetailDivs env b ds,
         ⟨cnt + b, fet ++ ((flattenTree ds).take b).map Company.url,
          some (ctx (splitDetailDivs env b ds)), true, some k⟩) := by
  intro ds
  induction ds with
  | nil => intro ctx b cnt fet ckp k hk hb; simp [totalLen, flattenTree] at hb
  | cons d rest ih =>
    intro ctx b cnt fet ckp k hk hb
    by_cases hble : b < d.companies.length
    · have hr := companiesLoop_crash env ival d.companies
        (fun cs => ctx ({ d with companies := cs } :: rest)) b cnt fet ckp k hk hble
      have hz : b - d.companies.length = 0 := by omega
      have htk : (flattenTree (d :: rest)).take b = d.companies.take b := by
        rw [flattenTree_cons, List.take_append_eq_append_take, hz]
        simp
      simp only [divisionsLoop, Bool.false_eq_true, if_false, hr]
      rw [divisionsLoop_halted env ival _ _ _ rest rfl]
      simp [splitDetailDivs, hz, splitDetailDivs_zero, htk]
    · have hlen : d.companies.length ≤ b := Nat.le_of_not_lt hble
      obtain ⟨ckp1, hr⟩ := companiesLoop_nocrash env ival d.companies
        (fun cs => ctx ({ d with companies := cs } :: rest)) b cnt fet ckp k hk hlen
      have hb' : b - d.companies.length < totalLen rest := by
        have : totalLen (d :: rest) = d.companies.length + totalLen rest := by
          simp [totalLen, flattenTree_cons]
        omega
      have hr2 := ih
        (fun ds2 => ctx ({ d with companies := d.companies.map (detailOnce env) } :: ds2))
        (b - d.companies.length) (cnt + d.companies.length)
        (fet ++ d.companies.map Company.url) ckp1 k (by omega) hb'
      have htk : (flattenTree (d :: rest)).take b =
          d.companies ++ (flattenTree rest).take (b - d.companies.length) := by
        rw [flattenTree_cons, List.take_append_eq_append_take,
            List.take_of_length_le (l := d.companies) hlen]
      simp only [divisionsLoop, Bool.false_eq_true, if_false, hr, hr2]
      have hsp : splitDetailDivs env b (d :: rest) =
          { d with companies := d.companies.map (detailOnce env) } ::
            splitDetailDivs env (b - d.companies.length) rest := by
        simp [splitDetailDivs, firstDetail_ge env b d.companies hlen]
      simp [hsp, htk]
      omega

theorem divisionsLoop_nocrash (env : CrawlEnv) (ival : Nat) :
    ∀ (ds : List Division) (ctx : List Division → List Division)
      (b cnt : Nat) (fet : List String) (ckp : Option (List Division)) (k : Nat),
      cnt + b = k → totalLen ds ≤ b →
      ∃ ckp2,
        divisionsLoop env ival (fun _ => false) ctx ⟨cnt, fet, ckp, false, some k⟩ ds =
          (fullDetailTree env ds,
           ⟨cnt + totalLen ds, fet ++ (flattenTree ds).map Company.url, ckp2, false, some k⟩) := by
  intro ds
  induction ds with
  | nil =>
    intro ctx b cnt fet ckp k hk hb
    exact ⟨ckp, by simp [divisionsLoop, fullDetailTree, totalLen, flattenTree]⟩
  | cons d rest ih =>
    intro ctx b cnt fet ckp k hk hb
    have htot : totalLen (d :: rest) = d.companies.length + totalLen rest := by
      simp [totalLen, flattenTree_cons]
    have hlen : d.companies.length ≤ b := by omega
    obtain ⟨ckp1, hr⟩ := companiesLoop_nocrash env ival d.companies
      (fun cs => ctx ({ d with companies := cs } :: rest)) b cnt fet ckp k hk hlen
    obtain ⟨ckp2, hr2⟩ := ih
      (fun ds2 => ctx ({ d with companies := d.companies.map (detailOnce env) } :: ds2))
      (b - d.companies.length) (cnt + d.companies.length)
      (fet ++ d.companies.map Company.url) ckp1 k (by omega) (by omega)
    refine ⟨ckp2, ?_⟩
    simp only [divisionsLoop, Bool.false_eq_true, if_false, hr, hr2]
    simp [fullDetailTree, flattenTree_cons, htot]
    omega

/-! ## Resume-side lemmas -/

theorem firstDetail_nil (env : CrawlEnv) (b : Nat) : firstDetail env b [] = [] := by
  cases b <;> rfl

theorem firstDetail_append (env : CrawlEnv) :
    ∀ (b : Nat) (xs ys : List Company),
      firstDetail env b (xs ++ ys) =
        firstDetail env b xs ++ firstDetail env (b - xs.length) ys := by
  intro b xs
  induction xs generalizing b with
  | nil => intro ys; simp [firstDetail_nil, firstDetail]
  | cons x xs ih =>
    intro ys
    match b with
    | 0 => simp [firstDetail]
    | b' + 1 =>
      simp only [List.cons_append, firstDetail, List.length_cons,
        Nat.succ_sub_succ, List.append_eq, ih b' ys]

theorem flattenTree_split (env : CrawlEnv) :
    ∀ (b : Nat) (ds : List Division),
      flattenTree (splitDetailDivs env b ds) = firstDetail env b (flattenTree ds) := by
  intro b ds
  induction ds generalizing b with
  | nil => simp [splitDetailDivs, flattenTree, firstDetail_nil]
  | cons d rest ih =>
    simp only [splitDetailDivs, flattenTree_cons, firstDetail_append, ih]

theorem firstDetail_map_url (env : CrawlEnv) :
    ∀ (b : Nat) (cs : List Company),
      (firstDetail env b cs).map Company.url = cs.map Company.url
  | 0, _ => rfl
  | _ + 1, [] => rfl
  | b + 1, c :: cs => by
    simp [firstDetail, detailOnce_url, firstDetail_map_url env b cs]

theorem processCompanyLink_mem (dcode dname : String) (st : MfrState) (l : CompanyLink)
    (p : String × Company) (hp : p ∈ (processCompanyLink dcode dname st l).1) :
    p ∈ st.1 ∨ p.2.address = "" := by
  unfold processCompanyLink at hp
  split at hp
  · exact Or.inl hp
  · split at hp
    · left
      simpa [apply_ite (Prod.fst : List (String × Company) × Nat → List (String × Company)),
        ite_self] using hp
    · simp only [apply_ite (Prod.fst : List (String × Company) × Nat → List (String × Company))]
        at hp
      split at hp
      · exact Or.inl hp
      · rcases List.mem_append.mp hp with hmem | hmem
        · exact Or.inl hmem
        · right
          simp only [List.mem_singleton] at hmem
          rw [hmem]

theorem mfrFold_mem_addr (dcode dname : String) :
    ∀ (links : List CompanyLink) (st : MfrState),
      (∀ p ∈ st.1, p.2.address = "") →
      ∀ p ∈ (links.foldl (processCompanyLink dcode dname) st).1, p.2.address = "" := by
  intro links
  induction links with
  | nil => intro st h; exact h
  | cons l rest ih =>
    intro st h
    refine ih (processCompanyLink dcode dname st l) ?_
    intro p hp
    rcases processCompanyLink_mem dcode dname st l p hp with hmem | ha
    · exact h p hmem
    · exact ha

theorem initialTree_addr_empty (env : CrawlEnv) :
    ∀ d ∈ initialTree env, ∀ c ∈ d.companies, c.address = "" := by
  intro d hd c hc
  obtain ⟨d0, hd0, rfl⟩ := List.mem_map.mp hd
  unfold expandDivision at hc
  split at hc
  · unfold scrapeDivisionManufacturersFetch at hc
    split at hc
    · obtain ⟨t, ht, rfl⟩ := List.mem_map.mp hd0
      simp at hc
    · simp only [scrape_division_manufacturers] at hc
      obtain ⟨p, hp, rfl⟩ := List.mem_map.mp hc
      exact mfrFold_mem_addr d0.code d0.name _ ([], 0) (by simp) p hp
  · obtain ⟨t, ht, rfl⟩ := List.mem_map.mp hd0
    simp at hc

theorem expandDivision_keeps_meta (env : CrawlEnv) (d : Division) :
    ∃ cs, expandDivision env d = { d with companies := cs } := by
  unfold expandDivision scrapeDivisionManufacturersFetch scrape_division_manufacturers
  split
  · split
    · exact ⟨d.companies, by cases d; rfl⟩
    · exact ⟨_, rfl⟩
  · exact ⟨d.companies, by cases d; rfl⟩

theorem expandDivision_fix (env : CrawlEnv) (d0 : Division) (h0 : d0.companies = [])
    (cs : List Company) (hlen : cs.length = (expandDivision env d0).companies.length) :
    expandDivision env { expandDivision env d0 with companies := cs } =
      { expandDivision env d0 with companies := cs } := by
  obtain ⟨cs0, hcs0⟩ := expandDivision_keeps_meta env d0
  by_cases hcs : cs = []
  · subst hcs
    have he : cs0 = [] := by
      have h2 := hlen.symm
      rw [hcs0] at h2
      simpa using h2
    subst he
    have heta : ({ d0 with companies := ([] : List Company) } : Division) = d0 := by
      cases d0
      simp_all
    have hx : expandDivision env d0 = d0 := by rw [hcs0, heta]
    rw [hx, heta]
    exact hx
  · unfold expandDivision
    rw [if_neg]
    simp [hcs]
theorem discoverDivisions_companies (env : CrawlEnv) :
    ∀ d ∈ discoverDivisions env, d.companies = [] := by
  intro d hd
  obtain ⟨t, _, rfl⟩ := List.mem_map.mp hd
  rfl

theorem splitTree_expand_fixed (env : CrawlEnv) :
    ∀ (ds0 : List Division) (b : Nat), (∀ d ∈ ds0, d.companies = []) →
      (splitDetailDivs env b (ds0.map (expandDivision env))).map (expandDivision env) =
        splitDetailDivs env b (ds0.map (expandDivision env)) := by
  intro ds0
  induction ds0 with
  | nil => intro b _; rfl
  | cons d0 rest ih =>
    intro b h
    simp only [List.map_cons, splitDetailDivs]
    rw [expandDivision_fix env d0 (h d0 (by simp)) _ (firstDetail_length env _ _),
        ih _ (fun d hd => h d (by simp [hd]))]

theorem skipOf_flatten (ckpt : List Division) (u : String) :
    skipOf ckpt u = (flattenTree ckpt).any (fun c => c.url == u && c.address != "") := by
  induction ckpt with
  | nil => rfl
  | cons d rest ih =>
    simp [skipOf, flattenTree_cons, List.any_append]
    simp [skipOf] at ih
    rw [ih]

theorem skip_raw_false (T : List Division)
    (hnd : ((flattenTree T).map Company.url).Nodup)
    (e : Company) (he : e ∈ flattenTree T) (ha : e.address = "") :
    skipOf T e.url = false := by
  rw [skipOf_flatten]
  rw [List.any_eq_false]
  intro x hx
  by_cases hxu : x.url = e.url
  · have hxe : x = e := List.inj_on_of_nodup_map hnd hx he hxu
    subst hxe
    simp [ha]
  · simp [hxu]
theorem firstDetail_step_eq (env : CrawlEnv) (s : String → Bool) :
    ∀ (b : Nat) (cs : List Company),
      (∀ e ∈ cs, e.address = "") →
      (∀ e ∈ firstDetail env b cs, e.address = "" → s e.url = false) →
      (firstDetail env b cs).map (stepCompany env s) = cs.map (detailOnce env) := by
  intro b cs
  induction cs generalizing b with
  | nil => intro _ _; simp [firstDetail_nil]
  | cons c rest ih =>
    intro h0 hs
    match b with
    | 0 =>
      have hsc : s c.url = false := hs c (by simp [firstDetail]) (h0 c (by simp))
      simp only [firstDetail, List.map_cons]
      rw [show stepCompany env s c = detailOnce env c by simp [stepCompany, hsc]]
      have hrest := ih 0 (fun e he => h0 e (by simp [he]))
        (fun e he ha => hs e
          (by simp only [firstDetail] at he ⊢; exact List.mem_cons_of_mem _ he) ha)
      simp only [firstDetail] at hrest
      rw [hrest]
    | b' + 1 =>
      simp only [firstDetail, List.map_cons]
      have hstep : stepCompany env s (detailOnce env c) = detailOnce env c := by
        unfold stepCompany
        split
        · rfl
        · exact detailOnce_idem env c
      rw [hstep]
      rw [ih b' (fun e he => h0 e (by simp [he]))
        (fun e he ha => hs e (by simp [firstDetail]; right; exact he) ha)]

theorem splitTree_step_eq (env : CrawlEnv) (s : String → Bool) :
    ∀ (ds : List Division) (b : Nat),
      (∀ d ∈ ds, ∀ e ∈ d.companies, e.address = "") →
      (∀ e ∈ flattenTree (splitDetailDivs env b ds), e.address = "" → s e.url = false) →
      (splitDetailDivs env b ds).map
        (fun d => { d with companies := d.companies.map (stepCompany env s) }) =
        fullDetailTree env ds := by
  intro ds
  induction ds with
  | nil => intro b _ _; rfl
  | cons d rest ih =>
    intro b h0 hs
    simp only [splitDetailDivs, List.map_cons, fullDetailTree]
    have hmem : ∀ e ∈ firstDetail env b d.companies,
        e ∈ flattenTree (splitDetailDivs env b (d :: rest)) := by
      intro e he
      rw [show splitDetailDivs env b (d :: rest) =
          { d with companies := firstDetail env b d.companies } ::
            splitDetailDivs env (b - d.companies.length) rest from rfl,
        flattenTree_cons]
      exact List.mem_append_left _ he
    have hmem2 : ∀ e ∈ flattenTree (splitDetailDivs env (b - d.companies.length) rest),
        e ∈ flattenTree (splitDetailDivs env b (d :: rest)) := by
      intro e he
      rw [show splitDetailDivs env b (d :: rest) =
          { d with companies := firstDetail env b d.companies } ::
            splitDetailDivs env (b - d.companies.length) rest from rfl,
        flattenTree_cons]
      exact List.mem_append_right _ he
    congr 1
    · rw [firstDetail_step_eq env s b d.companies (h0 d (by simp))
        (fun e he ha => hs e (hmem e he) ha)]
    · exact ih (b - d.companies.length) (fun d2 hd2 => h0 d2 (by simp [hd2]))
        (fun e he ha => hs e (hmem2 e he) ha)
theorem freshRun_full_tree (env : CrawlEnv) (ival : Nat) :
    (freshRunCsi env ival none).1 = fullDetailTree env (initialTree env) := by
  unfold freshRunCsi
  dsimp only
  rw [(divisionsLoop_no_budget env ival (fun _ => false) (initialTree env) id 0 [] none).1]
  simp [fullDetailTree, stepCompany]

theorem freshRun_ckpt (env : CrawlEnv) (ival k : Nat) :
    (freshRunCsi env ival (some k)).2.checkpoint =
      some (splitDetailDivs env k (initialTree env)) := by
  unfold freshRunCsi
  by_cases hk : k < totalLen (initialTree env)
  · have hr := divisionsLoop_crash env ival (initialTree env) id k 0 [] none k (by omega) hk
    dsimp only
    rw [hr]
    simp
  · obtain ⟨ckp2, hr⟩ := divisionsLoop_nocrash env ival (initialTree env) id k 0 [] none k
      (by omega) (Nat.le_of_not_lt hk)
    dsimp only
    rw [hr]
    simp [splitDetailDivs_ge env k _ (Nat.le_of_not_lt hk)]

theorem resume_equivalence_aux (env : CrawlEnv) (ival k : Nat)
    (hnd : ((flattenTree (initialTree env)).map Company.url).Nodup)
    (T : List Division)
    (hT : (freshRunCsi env ival (some k)).2.checkpoint = some T) :
    (resumeRunCsi env ival T).1 = (freshRunCsi env ival none).1 := by
  rw [freshRun_ckpt env ival k] at hT
  have hTe : T = splitDetailDivs env k (initialTree env) := by
    injection hT.symm
  subst hTe
  rw [freshRun_full_tree]
  unfold resumeRunCsi
  dsimp only
  by_cases hemp : (splitDetailDivs env k (initialTree env)).isEmpty = true
  · have hTnil : splitDetailDivs env k (initialTree env) = [] :=
      List.isEmpty_iff.mp hemp
    have hInit : initialTree env = [] := by
      cases hI : initialTree env with
      | nil => rfl
      | cons d rest => rw [hI] at hTnil; simp [splitDetailDivs] at hTnil
    have hdisc : discoverDivisions env = [] := by
      have := hInit
      unfold initialTree at this
      exact List.map_eq_nil_iff.mp this
    simp [hemp, hTnil, hInit, hdisc, divisionsLoop, fullDetailTree]
  · simp only [hemp, if_false, Bool.false_eq_true]
    have hfix : (splitDetailDivs env k (initialTree env)).map (expandDivision env) =
        splitDetailDivs env k (initialTree env) := by
      unfold initialTree
      exact splitTree_expand_fixed env (discoverDivisions env) k (discoverDivisions_companies env)
    rw [hfix]
    rw [(divisionsLoop_no_budget env ival (skipOf (splitDetailDivs env k (initialTree env)))
      (splitDetailDivs env k (initialTree env)) id 0 [] none).1]
    have hnd2 : ((flattenTree (splitDetailDivs env k (initialTree env))).map Company.url).Nodup := by
      rw [flattenTree_split, firstDetail_map_url]
      exact hnd
    exact splitTree_step_eq env _ (initialTree env) k (initialTree_addr_empty env)
      (fun e he ha => skip_raw_false _ hnd2 e he ha)

/-! ## The retrying fetch layer (`_make_request`, identical in both files) -/

/-- `MAX_RETRIES` constant. -/
def MAX_RETRIES : Nat := 3

/-- `RETRY_DELAY_BASE` constant (seconds). -/
def RETRY_DELAY_BASE : Nat := 5

/-- What one attempt of `self.session.get(url)` does: succeed, time out,
fail to connect, or raise any other `RequestException` (e.g. the
`HTTPError` of `raise_for_status` on a non-2xx response). -/
inductive FetchOutcome where
  | success
  | timeout
  | connError
  | httpError
deriving DecidableEq, Repr

/-- Result of a `_make_request` call: the classified result (`none` = no
data for this URL), the number of attempts made, and the backoff sleeps
performed (seconds, in order; the unconditional `REQUEST_DELAY` rate-limit
sleep before every attempt is not part of the backoff). -/
structure FetchTrace where
  result : Option Unit
  attempts : Nat
  delays : List Nat
deriving DecidableEq, Repr

/-- The `for attempt in range(MAX_RETRIES)` loop of `_make_request`
(lines 527-552): `oc k` is the outcome of attempt `k`; a timeout or
connection error sleeps `RETRY_DELAY_BASE * 2 ** attempt` and retries
unless this was the last attempt; any other request exception returns
`None` immediately. -/
def fetchLoop (oc : Nat → FetchOutcome) : Nat → Nat → FetchTrace
  | _, 0 => { result := none, attempts := 0, delays := [] }
  | attempt, rem + 1 =>
    match oc attempt with
    | .success => { result := some (), attempts := 1, delays := [] }
    | .httpError => { result := none, attempts := 1, delays := [] }
    | .timeout | .connError =>
      if rem = 0 then { result := none, attempts := 1, delays := [] }
      else
        let t := fetchLoop oc (attempt + 1) rem
        { result := t.result, attempts := t.attempts + 1,
          delays := RETRY_DELAY_BASE * 2 ^ attempt :: t.delays }

/-- `_make_request` for a URL whose attempts behave as `oc`. -/
def make_request (oc : Nat → FetchOutcome) : FetchTrace :=
  fetchLoop oc 0 MAX_RETRIES

/-! ## `ProgressTracker` (durations as rationals) -/

/-- The fields of `ProgressTracker` that its queries read (`sweets`
naming; the ARCAT copy is identical up to `companies`/`items`). -/
structure ProgressTracker where
  total_items : Nat
  scraped_items : Nat
  scrape_times : List ℚ
deriving Repr

/-- `ProgressTracker.get_percentage`. -/
def get_percentage (pt : ProgressTracker) : ℚ :=
  if pt.total_items = 0 then 0
  else ((pt.scraped_items : ℚ) / (pt.total_items : ℚ)) * 100

/-- `ProgressTracker.get_eta_seconds`. -/
def get_eta_seconds (pt : ProgressTracker) : ℚ :=
  if pt.scrape_times = [] ∨ pt.scraped_items = 0 then 0
  else (pt.scrape_times.sum / (pt.scrape_times.length : ℚ)) *
    ((pt.total_items : ℚ) - (pt.scraped_items : ℚ))

/-- `ProgressTracker.get_speed` (items per minute). -/
def get_speed (pt : ProgressTracker) : ℚ :=
  if pt.scrape_times = [] then 0
  else
    let avg := pt.scrape_times.sum / (pt.scrape_times.length : ℚ)
    if avg = 0 then 0 else 60 / avg

/-! ## Claim theorems -/

/-- C6: for a URL failing with a timeout or connection error on every
attempt, `_make_request` makes exactly `MAX_RETRIES = 3` attempts, the
backoff delays are `RETRY_DELAY_BASE * 2 ^ attempt = [5, 10]` — strictly
increasing — and the call returns `None`; moreover no call of
`_make_request` ever makes more than `MAX_RETRIES` attempts (the loop
always terminates). -/
theorem c6_backoff_monotone_bounded (oc : Nat → FetchOutcome)
    (h : ∀ k, oc k = FetchOutcome.timeout ∨ oc k = FetchOutcome.connError) :
    (make_request oc).result = none ∧
    (make_request oc).attempts = MAX_RETRIES ∧
    (make_request oc).delays = [RETRY_DELAY_BASE * 2 ^ 0, RETRY_DELAY_BASE * 2 ^ 1] ∧
    List.Chain' (· < ·) (make_request oc).delays ∧
    (∀ oc2 : Nat → FetchOutcome, (make_request oc2).attempts ≤ MAX_RETRIES) := by
  refine ⟨?_, ?_, ?_, ?_, ?_⟩
  case _ =>
    rcases h 0 with h0 | h0 <;> rcases h 1 with h1 | h1 <;> rcases h 2 with h2 | h2 <;>
      simp [make_request, MAX_RETRIES, fetchLoop, h0, h1, h2]
  case _ =>
    rcases h 0 with h0 | h0 <;> rcases h 1 with h1 | h1 <;> rcases h 2 with h2 | h2 <;>
      simp [make_request, MAX_RETRIES, fetchLoop, h0, h1, h2]
  case _ =>
    rcases h 0 with h0 | h0 <;> rcases h 1 with h1 | h1 <;> rcases h 2 with h2 | h2 <;>
      simp [make_request, MAX_RETRIES, fetchLoop, h0, h1, h2, RETRY_DELAY_BASE]
  case _ =>
    rcases h 0 with h0 | h0 <;> rcases h 1 with h1 | h1 <;> rcases h 2 with h2 | h2 <;>
      simp [make_request, MAX_RETRIES, fetchLoop, h0, h1, h2, RETRY_DELAY_BASE]
  case _ =>
    intro oc2
    rcases e0 : oc2 0 <;> rcases e1 : oc2 1 <;> rcases e2 : oc2 2 <;>
      simp [make_request, MAX_RETRIES, fetchLoop, e0, e1, e2]

/-- C6 witness: the theorem applied to a URL that times out on every
attempt. -/
theorem c6_backoff_monotone_bounded_witness :
    (make_request (fun _ => FetchOutcome.timeout)).result = none ∧
    (make_request (fun _ => FetchOutcome.timeout)).attempts = MAX_RETRIES ∧
    (make_request (fun _ => FetchOutcome.timeout)).delays =
      [RETRY_DELAY_BASE * 2 ^ 0, RETRY_DELAY_BASE * 2 ^ 1] ∧
    List.Chain' (· < ·) (make_request (fun _ => FetchOutcome.timeout)).delays ∧
    (∀ oc2 : Nat → FetchOutcome, (make_request oc2).attempts ≤ MAX_RETRIES) :=
  c6_backoff_monotone_bounded (fun _ => FetchOutcome.timeout) (fun _ => Or.inl rfl)

/-- Environment for the error-continuation behavior: one division of three
companies whose middle detail page fails with a non-retryable error. -/
def envContinue : CrawlEnv :=
  { related_divisions :=
      [("02", "EXISTING CONDITIONS",
        "https://www.arcat.com/content-type/product/x-02/x-020000")],
    manufacturers := fun u =>
      if u = "https://www.arcat.com/content-type/product/x-02/x-020000" then
        some [{ href := "/company/alpha-1", text := "Alpha Mfg" },
              { href := "/company/beta-2", text := "Beta Mfg" },
              { href := "/company/gamma-3", text := "Gamma Mfg" }]
      else none,
    detail := fun u =>
      if u = "https://www.arcat.com/company/alpha-1" then
        some { regex_address := "5 A St" }
      else if u = "https://www.arcat.com/company/gamma-3" then
        some { regex_address := "7 C St" }
      else none }

/-- C7: a request exception that is neither a timeout nor a connection
error (e.g. the non-2xx `raise_for_status`) makes `_make_request` return
`None` after exactly one attempt with no backoff sleep; a division whose
listing fetch fails is returned unchanged, a company whose detail fetch
fails is returned unchanged, and the crawl continues past the failure: in
`envContinue` the middle company's detail fetch fails, yet all three
detail URLs are attempted and the third company is still populated. -/
theorem c7_nonretryable_immediate (oc : Nat → FetchOutcome)
    (h : oc 0 = FetchOutcome.httpError) :
    (make_request oc).result = none ∧
    (make_request oc).attempts = 1 ∧
    (make_request oc).delays = [] ∧
    (∀ (env : CrawlEnv) (d : Division), env.manufacturers d.url = none →
      scrapeDivisionManufacturersFetch env d = (d, 0)) ∧
    (∀ (env : CrawlEnv) (c : Company), env.detail c.url = none →
      detailOnce env c = c) ∧
    (freshRunCsi envContinue 10 none).2.fetched =
      ["https://www.arcat.com/company/alpha-1",
       "https://www.arcat.com/company/beta-2",
       "https://www.arcat.com/company/gamma-3"] ∧
    (flattenTree (freshRunCsi envContinue 10 none).1).map Company.address =
      ["5 A St", "", "7 C St"] := by
  refine ⟨?_, ?_, ?_, ?_, ?_, ?_, ?_⟩
  · simp [make_request, MAX_RETRIES, fetchLoop, h]
  · simp [make_request, MAX_RETRIES, fetchLoop, h]
  · simp [make_request, MAX_RETRIES, fetchLoop, h]
  · intro env d hm
    simp [scrapeDivisionManufacturersFetch, hm]
  · intro env c hm
    simp [detailOnce, hm]
  · decide
  · decide

/-- C7 witness: the theorem applied to a URL whose first attempt raises a
non-retryable request exception. -/
theorem c7_nonretryable_immediate_witness :
    (make_request (fun _ => FetchOutcome.httpError)).result = none ∧
    (make_request (fun _ => FetchOutcome.httpError)).attempts = 1 ∧
    (make_request (fun _ => FetchOutcome.httpError)).delays = [] ∧
    (∀ (env : CrawlEnv) (d : Division), env.manufacturers d.url = none →
      scrapeDivisionManufacturersFetch env d = (d, 0)) ∧
    (∀ (env : CrawlEnv) (c : Company), env.detail c.url = none →
      detailOnce env c = c) ∧
    (freshRunCsi envContinue 10 none).2.fetched =
      ["https://www.arcat.com/company/alpha-1",
       "https://www.arcat.com/company/beta-2",
       "https://www.arcat.com/company/gamma-3"] ∧
    (flattenTree (freshRunCsi envContinue 10 none).1).map Company.address =
      ["5 A St", "", "7 C St"] :=
  c7_nonretryable_immediate (fun _ => FetchOutcome.httpError) rfl

/-- C10: every `ProgressTracker` query is total and guarded:
`get_percentage` is 0 when the total is 0, `get_eta_seconds` is 0 when no
durations were recorded or nothing was scraped, and `get_speed` is 0 when
the window is empty or its average duration is 0. -/
theorem c10_tracker_guards (pt : ProgressTracker) :
    (pt.total_items = 0 → get_percentage pt = 0) ∧
    (pt.scrape_times = [] ∨ pt.scraped_items = 0 → get_eta_seconds pt = 0) ∧
    (pt.scrape_times = [] → get_speed pt = 0) ∧
    (pt.scrape_times.sum / (pt.scrape_times.length : ℚ) = 0 → get_speed pt = 0) := by
  refine ⟨?_, ?_, ?_, ?_⟩
  · intro h; simp [get_percentage, h]
  · intro h; simp [get_eta_seconds, h]
  · intro h; simp [get_speed, h]
  · intro h
    unfold get_speed
    split
    · rfl
    · simp [h]

/-- C10 witness: the guards at a fresh tracker (total 0, nothing scraped,
empty window). -/
theorem c10_tracker_guards_witness :
    ((⟨0, 0, []⟩ : ProgressTracker).total_items = 0 →
      get_percentage ⟨0, 0, []⟩ = 0) ∧
    ((⟨0, 0, []⟩ : ProgressTracker).scrape_times = [] ∨
        (⟨0, 0, []⟩ : ProgressTracker).scraped_items = 0 →
      get_eta_seconds ⟨0, 0, []⟩ = 0) ∧
    ((⟨0, 0, []⟩ : ProgressTracker).scrape_times = [] → get_speed ⟨0, 0, []⟩ = 0) ∧
    ((⟨0, 0, []⟩ : ProgressTracker).scrape_times.sum /
        ((⟨0, 0, []⟩ : ProgressTracker).scrape_times.length : ℚ) = 0 →
      get_speed ⟨0, 0, []⟩ = 0) :=
  c10_tracker_guards ⟨0, 0, []⟩

/-- The section link and division used in the re-expansion counterexample. -/
def sectionMetaC4 : SectionMeta :=
  { href := "/masterformat/general-requirements-01-00-00/protecting-installed-construction-01-76-00",
    code := "01 76 00", name := "Protecting Installed Construction" }

/-- A fresh SWEETS division before any expansion. -/
def divisionC4 : SDivision :=
  { code := "01 00 00", name := "General Requirements",
    url := "https://sweets.construction.com/quicklinks/3partspecs/01-00-00-general-requirements" }

/-- C4 counterexample: `scrape_division_sections` appends to
`division.sections` instead of overwriting, so expanding the same division
twice with identical markup duplicates its child set — the claimed
idempotence fails. -/
theorem c4_reexpansion_appends_duplicates :
    scrape_division_sections [sectionMetaC4]
        (scrape_division_sections [sectionMetaC4] divisionC4) ≠
      scrape_division_sections [sectionMetaC4] divisionC4 ∧
    (scrape_division_sections [sectionMetaC4]
        (scrape_division_sections [sectionMetaC4] divisionC4)).sections.length = 2 ∧
    (scrape_division_sections [sectionMetaC4] divisionC4).sections.length = 1 := by
  refine ⟨?_, by decide, by decide⟩
  decide

/-- C4 amended: the orchestrator only expands a node whose child list is
empty (`if not division.sections` / `if not division.companies`), and that
guarded expansion is idempotent; the entity-list expansion of
`scrape_division_manufacturers` overwrites `division.companies`, so the
guarded division expansion of the ARCAT orchestrator is idempotent as
well. The unguarded `scrape_division_sections` itself appends (see the
counterexample). -/
theorem c4_guarded_expansion_idempotent (links : List SectionMeta) (d : SDivision)
    (env : CrawlEnv) (dv : Division) :
    expandSectionsGuarded links (expandSectionsGuarded links d) =
      expandSectionsGuarded links d ∧
    expandDivision env (expandDivision env dv) = expandDivision env dv ∧
    (scrape_division_sections links d).sections =
      d.sections ++ sectionsFromLinks links := by
  refine ⟨?_, ?_, rfl⟩
  · unfold expandSectionsGuarded
    split
    · unfold scrape_division_sections
      split
      · rename_i hempty hempty2
        simp at hempty2
        cases d
        simp_all [scrape_division_sections]
      · rfl
    · rfl
  · by_cases hne : dv.companies = []
    · have h2 := expandDivision_fix env dv hne
        ((expandDivision env dv).companies) rfl
      obtain ⟨cs0, hcs0⟩ := expandDivision_keeps_meta env dv
      calc expandDivision env (expandDivision env dv)
          = expandDivision env { expandDivision env dv with
              companies := (expandDivision env dv).companies } := by
            rw [hcs0]
        _ = { expandDivision env dv with
              companies := (expandDivision env dv).companies } := by
            rw [h2]
        _ = expandDivision env dv := by rw [hcs0]
    · have : expandDivision env dv = dv := by
        unfold expandDivision
        rw [if_neg]
        simp [hne]
      rw [this, this]

/-- The six serialized groups of the C8 scenario markup
`"123 Oak Rd.","Austin","TX","78701","512-555-0100","info@example.com"`
as captured by `_extract_from_nuxt_data`. -/
def nuxtC8 : NuxtData :=
  { address := "123 Oak Rd.", city := "Austin", state := "TX", zip := "78701",
    phone := "512-555-0100", email := "info@example.com" }

/-- Detail-page extraction outcome for the C8 scenario. -/
def detailC8 : ArcatDetail := { nuxt := nuxtC8 }

/-- A freshly discovered company (all contact fields empty). -/
def companyC8 : Company :=
  { name := "Example Co", url := "https://www.arcat.com/company/example-co-1" }

/-- C8 counterexample: on the scenario markup the code composes the
address with the *raw* region abbreviation (`"..., TX 78701"`, not
`"..., Texas 78701"`) and stores the phone exactly as serialized
(`"512-555-0100"`, not `"(512) 555-0100"`), so the claimed address and
phone values are both wrong. -/
theorem c8_scenario_values_counterexample :
    (applyArcatDetail detailC8 companyC8).address = "123 Oak Rd., Austin, TX 78701" ∧
    (applyArcatDetail detailC8 companyC8).address ≠ "123 Oak Rd., Austin, Texas 78701" ∧
    (applyArcatDetail detailC8 companyC8).phone = "512-555-0100" ∧
    (applyArcatDetail detailC8 companyC8).phone ≠ "(512) 555-0100" ∧
    (applyArcatDetail detailC8 companyC8).email = "info@example.com" := by
  refine ⟨by decide, by decide, by decide, by decide, by decide⟩

/-- C8 amended: extraction of the scenario markup yields
`address = "123 Oak Rd., Austin, TX 78701"` with the abbreviation mapped
through the table only in the separate `state` field (`"Texas"`), the
phone kept raw (`"512-555-0100"`) and the email unchanged; the
`"(512) 555-0100"` normal form is what the SWEETS `Tel:`-line parser
produces from the same phone string. -/
theorem c8_scenario_values :
    (applyArcatDetail detailC8 companyC8).address = "123 Oak Rd., Austin, TX 78701" ∧
    (applyArcatDetail detailC8 companyC8).state = "Texas" ∧
    (applyArcatDetail detailC8 companyC8).phone = "512-555-0100" ∧
    (applyArcatDetail detailC8 companyC8).email = "info@example.com" ∧
    sweetsNormalizePhone "512-555-0100" = "(512) 555-0100" ∧
    stateAbbrevToFull "TX" = "Texas" := by
  refine ⟨by decide, by decide, by decide, by decide, by decide, by decide⟩

/-- Listing page for the C9 counterexample: the same company href appears
twice, first with the plain company name and then with an
association-looking anchor text. -/
def linksC9 : List CompanyLink :=
  [{ href := "/company/acme-1", text := "Acme Mfg" },
   { href := "/company/acme-1", text := "Masonry Institute of America" }]

/-- Division owning the C9 listing page. -/
def divisionC9 : Division :=
  { code := "04", name := "MASONRY",
    url := "https://www.arcat.com/content-type/product/masonry-04/masonry-040000" }

/-- C9 counterexample: the dedup test runs *before* the association test,
so a listing entry whose name contains an association keyword but whose
query-stripped href was already seen is dropped without touching the
skipped-associations counter — the counter stays 0 instead of
incrementing by exactly 1 for that entry. -/
theorem c9_duplicate_association_not_counted :
    is_association "Masonry Institute of America" = true ∧
    (scrape_division_manufacturers divisionC9 linksC9).2 = 0 ∧
    ((scrape_division_manufacturers divisionC9 linksC9).1.companies).map Company.name =
      ["Acme Mfg"] := by
  refine ⟨by decide, by decide, by decide⟩

/-- C9 amended: for a listing entry that reaches the association test —
non-empty name, no `/cad`, `/bim` or `/spec` sub-page marker in the href,
and a query-stripped href not already seen — keyword membership discards
the entry and increments the counter by exactly 1, and a keyword-free
entry is inserted into the store instead. -/
theorem c9_association_filter_step (dcode dname : String) (st : MfrState)
    (l : CompanyLink)
    (htext : l.text ≠ "")
    (hcad : strContains l.href "/cad" = false)
    (hbim : strContains l.href "/bim" = false)
    (hspec : strContains l.href "/spec" = false)
    (hnew : (st.1.map Prod.fst).contains (stripQuery l.href) = false) :
    (is_association l.text = true →
      processCompanyLink dcode dname st l = (st.1, st.2 + 1)) ∧
    (is_association l.text = false →
      processCompanyLink dcode dname st l =
        (st.1 ++ [(stripQuery l.href,
          { name := l.text, url := fullUrl l.href,
            company_id := extractCompanyId l.href,
            building_product_category := dcode ++ " - " ++ dname })], st.2)) := by
  constructor
  · intro ha
    unfold processCompanyLink
    rw [if_neg (by simp [htext, hcad, hbim, hspec])]
    simp only [hnew, Bool.false_eq_true, if_false, ha, if_true]
  · intro ha
    unfold processCompanyLink
    rw [if_neg (by simp [htext, hcad, hbim, hspec])]
    simp only [hnew, Bool.false_eq_true, if_false, ha]

/-- C9 witness: the amended step at the scenario entry
"Masonry Institute of America" — discarded and counted exactly once. -/
theorem c9_association_filter_step_witness :
    processCompanyLink "04" "MASONRY" ([], 0)
      { href := "/company/mia-7", text := "Masonry Institute of America" } =
      (([] : List (String × Company)), 0 + 1) :=
  (c9_association_filter_step "04" "MASONRY" ([], 0)
    { href := "/company/mia-7", text := "Masonry Institute of America" }
    (by decide) (by decide) (by decide) (by decide) (by decide)).1 (by decide)

/-- Rendered-HTML extraction outcome for the C5 counterexample: the
rendered page shows phone `111-111-1111`. -/
def renderedC5 : RenderedData :=
  { address := "1 Alpha St, Austin, TX 78701", state := "TX", phone := "111-111-1111" }

/-- NUXT extraction outcome for the same page source: serialized phone
`222-222-2222`. -/
def detailC5 : ArcatDetail := { nuxt := { phone := "222-222-2222" } }

/-- A freshly discovered company for the C5 counterexample. -/
def companyC5 : Company :=
  { name := "Acme Mfg", url := "https://www.arcat.com/company/acme-9" }

/-- C5 counterexample: in the Selenium pass of `scrape_company_details`
the rendered-HTML strategy runs first and populates the phone, and the
NUXT strategy applied *later in the same pass* overwrites it — a
lower-ordered strategy overwrites a field already populated by an earlier
strategy, and the value returned is the later strategy's value. -/
theorem c5_selenium_pass_overwrites_counterexample :
    (applyRenderedData renderedC5 companyC5).phone = "111-111-1111" ∧
    (applyRenderedData renderedC5 companyC5).phone ≠ "" ∧
    (applyArcatDetailSelenium renderedC5 detailC5 companyC5).phone = "222-222-2222" ∧
    (applyArcatDetailSelenium renderedC5 detailC5 companyC5).phone ≠
      (applyRenderedData renderedC5 companyC5).phone := by
  refine ⟨by decide, by decide, by decide, by decide⟩

/-- C5 amended: in the default requests-only pass the strategies of each
contact field group are tried in fixed order with first-non-empty-wins:
on a fresh company the NUXT value wins whenever it is non-empty (even if
the regex fallback would also match), and the fallback fills the field
only when the NUXT group is empty; likewise the SWEETS
manufacturer-page fallback never overwrites a phone already populated by
the primary `<address>`-tag strategy. -/
theorem c5_requests_only_precedence (d : ArcatDetail) (nm u : String)
    (contact fallback : SContact) (mfr : Option SContact) (p0 : SProduct)
    (hph : contact.phone ≠ "") :
    ((applyArcatDetail d { name := nm, url := u }).phone =
      if d.nuxt.phone = "" then d.regex_phone else d.nuxt.phone) ∧
    ((applyArcatDetail d { name := nm, url := u }).email =
      if d.nuxt.email = "" then d.regex_email else d.nuxt.email) ∧
    ((applyArcatDetail d { name := nm, url := u }).website =
      if d.nuxt.website = "" then d.regex_website else d.nuxt.website) ∧
    (d.nuxt.address = "" →
      (applyArcatDetail d { name := nm, url := u }).address = d.regex_address) ∧
    (d.nuxt.address ≠ "" → composeNuxtAddress d.nuxt ≠ "" →
      (applyArcatDetail d { name := nm, url := u }).address = composeNuxtAddress d.nuxt) ∧
    (applySweetsDetail (some contact) fallback mfr p0).phone = contact.phone := by
  refine ⟨?_, ?_, ?_, ?_, ?_, ?_⟩
  · rw [applyArcatDetail_eq]
    dsimp only
    unfold fdFirst
    split_ifs <;> simp_all
  · rw [applyArcatDetail_eq]
    dsimp only
    unfold fdFirst
    split_ifs <;> simp_all
  · rw [applyArcatDetail_eq]
    dsimp only
    unfold fdFirst
    split_ifs <;> simp_all
  · intro ha
    rw [applyArcatDetail_eq]
    dsimp only
    unfold fdAddr
    simp [ha]
    exact fun h2 => h2.symm
  · intro ha hca
    rw [applyArcatDetail_eq]
    dsimp only
    unfold fdAddr
    simp [ha, hca]
  · unfold applySweetsDetail
    dsimp only
    split
    · cases mfr with
      | none => rfl
      | some m =>
        dsimp only
        split_ifs <;> simp_all
    · rfl

/-- C5 witness: the amended precedence at a concrete detail outcome where
both the NUXT phone and the regex fallback phone match — the NUXT
(higher-precedence) value wins. -/
theorem c5_requests_only_precedence_witness :
    (applyArcatDetail { nuxt := { phone := "222-222-2222" }, regex_phone := "333-333-3333" }
      { name := "Acme Mfg", url := "https://www.arcat.com/company/acme-9" }).phone =
      "222-222-2222" := by
  have h := c5_requests_only_precedence
    { nuxt := { phone := "222-222-2222" }, regex_phone := "333-333-3333" }
    "Acme Mfg" "https://www.arcat.com/company/acme-9"
    ({ phone := "(512) 555-0100" } : SContact) ({} : SContact) none
    { name := "P", url := "up" } (by decide)
  rw [h.1]
  decide

end Scraper
namespace Scraper

theorem takeWhile_append_all {p : Char → Bool} :
    ∀ (l1 l2 : List Char), l1.all p = true →
      (l1 ++ l2).takeWhile p = l1 ++ l2.takeWhile p := by
  intro l1
  induction l1 with
  | nil => intro l2 _; rfl
  | cons c t ih =>
    intro l2 h
    simp only [List.all_cons, Bool.and_eq_true] at h
    simp [List.takeWhile_cons, h.1, ih l2 h.2]

theorem stripQuery_base_append (href : String) :
    stripQuery (BASE_URL ++ href) = BASE_URL ++ stripQuery href := by
  obtain ⟨l⟩ := href
  show String.mk ((BASE_URL.data ++ l).takeWhile (fun c => c ≠ '?')) =
    String.mk (BASE_URL.data ++ l.takeWhile (fun c => c ≠ '?'))
  rw [takeWhile_append_all BASE_URL.data l (by decide)]

theorem append_left_injective_str :
    Function.Injective (fun s : String => BASE_URL ++ s) := by
  intro a b h
  obtain ⟨la⟩ := a
  obtain ⟨lb⟩ := b
  have h2 : BASE_URL.data ++ la = BASE_URL.data ++ lb := congrArg String.data h
  have h3 := List.append_cancel_left h2
  rw [h3]

theorem mfrFold_invariant (dcode dname : String) :
    ∀ (links : List CompanyLink) (st : MfrState),
      (∀ l ∈ links, l.href.toList.headD ' ' = '/') →
      (st.1.map Prod.fst).Nodup →
      (∀ p ∈ st.1, stripQuery p.2.url = BASE_URL ++ p.1) →
      ((links.foldl (processCompanyLink dcode dname) st).1.map Prod.fst).Nodup ∧
      (∀ p ∈ (links.foldl (processCompanyLink dcode dname) st).1,
        stripQuery p.2.url = BASE_URL ++ p.1) := by
  intro links
  induction links with
  | nil => intro st _ h1 h2; exact ⟨h1, h2⟩
  | cons l rest ih =>
    intro st hrel h1 h2
    refine ih (processCompanyLink dcode dname st l)
      (fun x hx => hrel x (List.mem_cons_of_mem _ hx)) ?_ ?_
    · unfold processCompanyLink
      split
      · exact h1
      · split
        · simpa [apply_ite
            (Prod.fst : List (String × Company) × Nat → List (String × Company)),
            ite_self] using h1
        · simp only [apply_ite
            (Prod.fst : List (String × Company) × Nat → List (String × Company))]
          split
          · exact h1
          · rename_i hseen
            simp only [List.map_append, List.map_cons, List.map_nil]
            refine (List.perm_append_singleton _ _).nodup_iff.mpr ?_
            refine List.nodup_cons.mpr ⟨?_, h1⟩
            intro hmem
            exact hseen (by simpa using hmem)
    · intro p hp
      unfold processCompanyLink at hp
      split at hp
      · exact h2 p hp
      · split at hp
        · refine h2 p ?_
          simpa [apply_ite
            (Prod.fst : List (String × Company) × Nat → List (String × Company)),
            ite_self] using hp
        · simp only [apply_ite
            (Prod.fst : List (String × Company) × Nat → List (String × Company))]
            at hp
          split at hp
          · exact h2 p hp
          · rcases List.mem_append.mp hp with hmem | hmem
            · exact h2 p hmem
            · simp only [List.mem_singleton] at hmem
              subst hmem
              have hslash : l.href.toList.headD ' ' = '/' := hrel l (by simp)
              show stripQuery (fullUrl l.href) = BASE_URL ++ stripQuery l.href
              unfold fullUrl
              rw [if_pos (by simpa using hslash)]
              exact stripQuery_base_append l.href

/-- C3 amended: within a single node, `scrape_division_manufacturers`
never stores two entities with the same canonical key (query-stripped
URL), provided the listing hrefs are root-relative as on the site; a
later listing entry whose dedup key is already present leaves the store
unchanged (first insertion wins); and the detail merge never replaces a
populated contact field by an empty one (the composed-address hypothesis
holds for every NUXT match, whose address group starts with a digit).
Across different nodes the uniqueness fails — see the counterexample. -/
theorem c3_per_node_dedup_no_empty_overwrite (d : Division) (links : List CompanyLink)
    (hrel : ∀ l ∈ links, l.href.toList.headD ' ' = '/')
    (dcode dname : String) (st : MfrState) (l : CompanyLink)
    (hseen : ((st.1.map Prod.fst).contains (stripQuery l.href)) = true)
    (dd : ArcatDetail) (c : Company)
    (hcomp : dd.nuxt.address ≠ "" → composeNuxtAddress dd.nuxt ≠ "") :
    (((scrape_division_manufacturers d links).1.companies).map
        (fun c => stripQuery c.url)).Nodup ∧
    processCompanyLink dcode dname st l = st ∧
    ((applyArcatDetail dd c).address = "" → c.address = "") ∧
    ((applyArcatDetail dd c).phone = "" → c.phone = "") ∧
    ((applyArcatDetail dd c).email = "" → c.email = "") ∧
    ((applyArcatDetail dd c).website = "" → c.website = "") := by
  refine ⟨?_, ?_, ?_, ?_, ?_, ?_⟩
  · obtain ⟨hnd, hurl⟩ := mfrFold_invariant d.code d.name links ([], 0) hrel
      (by simp) (by simp)
    show (((mfrFold d.code d.name links).1.map Prod.snd).map
      (fun c => stripQuery c.url)).Nodup
    rw [List.map_map]
    have hfun : ((mfrFold d.code d.name links).1.map
          ((fun c => stripQuery c.url) ∘ Prod.snd)) =
        ((mfrFold d.code d.name links).1.map Prod.fst).map
          (fun s => BASE_URL ++ s) := by
      rw [List.map_map]
      apply List.map_congr_left
      intro p hp
      exact hurl p hp
    rw [hfun]
    exact hnd.map append_left_injective_str
  · unfold processCompanyLink
    split
    · rfl
    · simp only [hseen]
      rfl
  · rw [applyArcatDetail_eq]
    dsimp only
    unfold fdAddr
    dsimp only
    by_cases hna : dd.nuxt.address ≠ ""
    · rw [if_pos hna, if_neg (hcomp hna)]
      intro h
      exact absurd h (hcomp hna)
    · rw [if_neg hna]
      by_cases hc : c.address = ""
      · intro _
        exact hc
      · rw [if_neg hc]
        intro h
        exact absurd h hc
  · rw [applyArcatDetail_eq]
    dsimp only
    unfold fdFirst
    split_ifs <;> simp_all
  · rw [applyArcatDetail_eq]
    dsimp only
    unfold fdFirst
    split_ifs <;> simp_all
  · rw [applyArcatDetail_eq]
    dsimp only
    unfold fdFirst
    split_ifs <;> simp_all

end Scraper

namespace Scraper

/-- Concrete division for exercising the per-node dedup invariant. -/
def dC3W : Division := { code := "03", name := "Concrete", url := "/divs/03-concrete.shtml" }

/-- Listing links containing the same company twice under different query
strings, plus a distinct company. -/
def linksC3W : List CompanyLink :=
  [⟨"/company/acme.html", "Acme"⟩,
   ⟨"/company/acme.html?division=03", "Acme"⟩,
   ⟨"/company/beta.html", "Beta"⟩]

/-- A seen-map already containing the dedup key of the incoming link. -/
def stC3W : MfrState :=
  ([("/company/acme.html", { name := "Acme", url := BASE_URL ++ "/company/acme.html" })], 0)

/-- A later listing entry whose query-stripped href is already seen. -/
def lC3W : CompanyLink := ⟨"/company/acme.html?x=1", "Acme Again"⟩

/-- A detail outcome with only fallback matches. -/
def ddC3W : ArcatDetail := { regex_address := "9 Z St", regex_phone := "555-000-1111" }

/-- A company with a populated address and empty phone. -/
def cC3W : Company := { name := "Acme", url := "u", address := "1 A St" }

theorem c3_per_node_dedup_no_empty_overwrite_witness :
    (((scrape_division_manufacturers dC3W linksC3W).1.companies).map
        (fun c => stripQuery c.url)).Nodup ∧
    processCompanyLink "03" "Concrete" stC3W lC3W = stC3W ∧
    ((applyArcatDetail ddC3W cC3W).address = "" → cC3W.address = "") ∧
    ((applyArcatDetail ddC3W cC3W).phone = "" → cC3W.phone = "") ∧
    ((applyArcatDetail ddC3W cC3W).email = "" → cC3W.email = "") ∧
    ((applyArcatDetail ddC3W cC3W).website = "" → cC3W.website = "") :=
  c3_per_node_dedup_no_empty_overwrite dC3W linksC3W (by decide) "03" "Concrete"
    stC3W lC3W (by decide) ddC3W cC3W (by decide)

end Scraper
namespace Scraper

theorem resumeRun_fetched (env : CrawlEnv) (ival : Nat) (ckpt : List Division) :
    (resumeRunCsi env ival ckpt).2.fetched =
      ((flattenTree ((if ckpt.isEmpty then discoverDivisions env else ckpt).map
        (expandDivision env))).filter (fun c => !skipOf ckpt c.url)).map Company.url := by
  unfold resumeRunCsi
  dsimp only
  obtain ⟨ha, cnt2, ckp2, hb⟩ := divisionsLoop_no_budget env ival (skipOf ckpt)
    ((if ckpt.isEmpty then discoverDivisions env else ckpt).map (expandDivision env)) id 0 [] none
  rw [hb]
  simp

/-- Listing links of the single division of the C1 scenario. -/
def linksC1 : List CompanyLink :=
  [⟨"/company/alpha.html", "Alpha"⟩,
   ⟨"/company/beta.html", "Beta"⟩,
   ⟨"/company/gamma.html", "Gamma"⟩]

/-- Stored URL of the first scenario company. -/
def urlC1a : String := BASE_URL ++ "/company/alpha.html"

/-- Stored URL of the second scenario company. -/
def urlC1b : String := BASE_URL ++ "/company/beta.html"

/-- Stored URL of the third scenario company. -/
def urlC1c : String := BASE_URL ++ "/company/gamma.html"

/-- Scenario environment where the first company's detail page fetches
successfully but every extraction strategy misses (empty outcome), so its
stored address stays empty. -/
def envC1 : CrawlEnv :=
  { related_divisions := [("01", "Div One", "/divs/d1.shtml")],
    manufacturers := fun u => if u = "/divs/d1.shtml" then some linksC1 else none,
    detail := fun u =>
      if u = urlC1a then some {}
      else if u = urlC1b then some { regex_address := "2 B St" }
      else if u = urlC1c then some { regex_address := "3 C St" }
      else none }

/-- The checkpoint persisted by the interrupted fresh run over `envC1`. -/
def ckptC1 : List Division := ((freshRunCsi envC1 2 (some 2)).2.checkpoint).getD []

/-- Scenario environment where all three detail extractions succeed. -/
def envC1good : CrawlEnv :=
  { related_divisions := [("01", "Div One", "/divs/d1.shtml")],
    manufacturers := fun u => if u = "/divs/d1.shtml" then some linksC1 else none,
    detail := fun u =>
      if u = urlC1a then some { regex_address := "1 A St" }
      else if u = urlC1b then some { regex_address := "2 B St" }
      else if u = urlC1c then some { regex_address := "3 C St" }
      else none }

/-- The checkpoint persisted by the interrupted fresh run over `envC1good`. -/
def ckptC1good : List Division := ((freshRunCsi envC1good 2 (some 2)).2.checkpoint).getD []

/-- C1 counterexample: in the spec's 3-entity scenario (interval 2,
interrupt before the 3rd entity) the interrupted run detail-fetched the
first two entities, yet the resumed run fetches the first entity again —
its fetch completed but extraction found no address, and the resume-time
"already scraped" set is keyed on a non-empty stored address, not on
fetch completion — so the resume does not fetch only the 3rd entity. -/
theorem c1_resume_refetch_counterexample :
    (freshRunCsi envC1 2 (some 2)).2.fetched = [urlC1a, urlC1b] ∧
    (freshRunCsi envC1 2 (some 2)).2.checkpoint = some ckptC1 ∧
    (resumeRunCsi envC1 2 ckptC1).2.fetched = [urlC1a, urlC1c] ∧
    (resumeRunCsi envC1 2 ckptC1).2.fetched ≠ [urlC1c] := by
  decide

/-- C1 amended: a resumed run never detail-fetches an entity in the
resume skip set — the entities whose checkpointed address is non-empty
(rather than all entities whose fetch completed); in the spec's 3-entity
scenario this yields "only the 3rd entity is fetched on resume" exactly
when the first two extractions produced a non-empty address, as in
`envC1good`. -/
theorem c1_resume_skips_only_scraped (env : CrawlEnv) (ival : Nat) (ckpt : List Division)
    (u : String) (hu : u ∈ (resumeRunCsi env ival ckpt).2.fetched) :
    skipOf ckpt u = false ∧
    (freshRunCsi envC1good 2 (some 2)).2.fetched = [urlC1a, urlC1b] ∧
    (freshRunCsi envC1good 2 (some 2)).2.checkpoint = some ckptC1good ∧
    (resumeRunCsi envC1good 2 ckptC1good).2.fetched = [urlC1c] := by
  refine ⟨?_, by decide, by decide, by decide⟩
  rw [resumeRun_fetched] at hu
  obtain ⟨c, hc, hcu⟩ := List.mem_map.mp hu
  obtain ⟨-, hskip⟩ := List.mem_filter.mp hc
  rw [← hcu]
  simpa using hskip

theorem c1_resume_skips_only_scraped_witness :
    skipOf ckptC1good urlC1c = false ∧
    (freshRunCsi envC1good 2 (some 2)).2.fetched = [urlC1a, urlC1b] ∧
    (freshRunCsi envC1good 2 (some 2)).2.checkpoint = some ckptC1good ∧
    (resumeRunCsi envC1good 2 ckptC1good).2.fetched = [urlC1c] :=
  c1_resume_skips_only_scraped envC1good 2 ckptC1good urlC1c (by decide)

end Scraper
namespace Scraper

/-- Environment in which the same company URL is listed under two
different CSI divisions (a manufacturer belonging to two divisions). -/
def envDupUrl : CrawlEnv :=
  { related_divisions :=
      [("02", "EXISTING CONDITIONS",
        "https://www.arcat.com/content-type/product/x-02/x-020000"),
       ("03", "CONCRETE",
        "https://www.arcat.com/content-type/product/y-03/y-030000")],
    manufacturers := fun u =>
      if u = "https://www.arcat.com/content-type/product/x-02/x-020000"
          || u = "https://www.arcat.com/content-type/product/y-03/y-030000" then
        some [{ href := "/company/acme-1", text := "Acme Mfg" }]
      else none,
    detail := fun u =>
      if u = "https://www.arcat.com/company/acme-1" then
        some { regex_address := "5 B St, Austin, TX 78701" }
      else none }

/-- C2 counterexample: with the same company URL under two divisions, a
one-pass run details both copies, but a run interrupted after the first
copy and resumed skips the second copy entirely (its URL is in the
already-scraped set), leaving it undetailed — the final stores differ
even modulo ordering. -/
theorem c2_duplicate_url_counterexample :
    ¬ (flattenTree (resumeRunCsi envDupUrl 1
          (((freshRunCsi envDupUrl 1 (some 1)).2.checkpoint).getD [])).1).Perm
        (flattenTree (freshRunCsi envDupUrl 1 none).1) ∧
    (flattenTree (freshRunCsi envDupUrl 1 none).1).map Company.address =
      ["5 B St, Austin, TX 78701", "5 B St, Austin, TX 78701"] ∧
    (flattenTree (resumeRunCsi envDupUrl 1
        (((freshRunCsi envDupUrl 1 (some 1)).2.checkpoint).getD [])).1).map Company.address =
      ["5 B St, Austin, TX 78701", ""] := by
  refine ⟨by decide, by decide, by decide⟩

/-- C2 amended: resume equivalence holds for every deterministic markup
environment, checkpoint interval and interruption point, *provided* no
company URL occurs at two places of the discovered tree: interrupting the
fresh run after any number `k` of detailed entities and resuming from the
persisted checkpoint yields exactly the store of the uninterrupted run. -/
theorem c2_resume_equivalence_unique_urls (env : CrawlEnv) (ival k : Nat)
    (hnd : ((flattenTree (initialTree env)).map Company.url).Nodup)
    (T : List Division)
    (hT : (freshRunCsi env ival (some k)).2.checkpoint = some T) :
    (resumeRunCsi env ival T).1 = (freshRunCsi env ival none).1 :=
  resume_equivalence_aux env ival k hnd T hT

/-- Environment for the C2 witness: one division, two distinct companies,
the first of which yields an address-less extraction. -/
def envC2W : CrawlEnv :=
  { related_divisions :=
      [("02", "EXISTING CONDITIONS",
        "https://www.arcat.com/content-type/product/x-02/x-020000")],
    manufacturers := fun u =>
      if u = "https://www.arcat.com/content-type/product/x-02/x-020000" then
        some [{ href := "/company/alpha-1", text := "Alpha Mfg" },
              { href := "/company/beta-2", text := "Beta Mfg" }]
      else none,
    detail := fun u =>
      if u = "https://www.arcat.com/company/alpha-1" then some {}
      else if u = "https://www.arcat.com/company/beta-2" then
        some { regex_address := "5 B St" }
      else none }

/-- The checkpoint persisted by the interrupted witness run. -/
def checkpointC2W : List Division :=
  ((freshRunCsi envC2W 1 (some 1)).2.checkpoint).getD []

/-- C2 witness: the amended equivalence applied to `envC2W`, interrupted
after one entity with interval 1. -/
theorem c2_resume_equivalence_unique_urls_witness :
    (resumeRunCsi envC2W 1 checkpointC2W).1 = (freshRunCsi envC2W 1 none).1 :=
  c2_resume_equivalence_unique_urls envC2W 1 1 (by decide) checkpointC2W (by decide)

/-- C3 counterexample: dedup is per listing page only, so after a full
crawl of `envDupUrl` the store holds two entities with the same canonical
key (query-stripped source URL) under two different nodes. -/
theorem c3_duplicate_key_across_nodes_counterexample :
    ¬ ((flattenTree (freshRunCsi envDupUrl 1 none).1).map
        (fun c => stripQuery c.url)).Nodup ∧
    ((freshRunCsi envDupUrl 1 none).1).map (fun d => d.companies.length) = [1, 1] := by
  refine ⟨by decide, by decide⟩

end Scraper
